/-
Verification of the note-organizer local storage and consistency engine.

This file shallowly embeds the JavaScript source of the repository
(NoteManager, StorageManager, SearchManager) into Lean 4 and proves, or
refutes, the claims of the specification about it.

Modelling conventions, used throughout:
- A JavaScript string is modelled as `Str := List Char`; `str` injects Lean
  string literals.  `s.trim()` is `jsTrim`, `s.toLowerCase()` is `jsLower`
  (JS `toLowerCase` is modelled per-character), `s.substring(0, n)` is
  `List.take n`, `a.includes(b)` is `jsIncludes`, `localeCompare`-induced
  ordering is the character-wise lexicographic order `strLeB`.
- A millisecond timestamp (`Date`) is a `Nat`; `new Date()` is an explicit
  `now : Nat` parameter threaded into each operation.
- A JS `Map` keyed by entity id is an insertion-ordered `List`; `Map.set`
  replaces in place or appends (`setNote`), `Map.delete` filters
  (`delNote`), matching JS Map iteration-order semantics.
- Fallible code returns `Except String`; `async` code is modelled
  sequentially (each `await` runs to completion) except for the dedicated
  small-step interleaving system at the end of the file, which models the
  cooperative scheduling relevant to the delete/save race claim.
- The success or failure of a storage transaction is an explicit `ok : Bool`
  parameter; a failed IndexedDB transaction rolls back and writes nothing.
-/
import Mathlib

set_option maxRecDepth 4000

/-! ## JavaScript string primitives -/

/-- A JavaScript string, as a list of characters. -/
abbrev Str := List Char

/-- Inject a Lean string literal as a `Str`. -/
def str (s : String) : Str := s.data

/-- The whitespace characters stripped by JS `String.prototype.trim`
(restricted to the common ASCII ones, which are the only ones the
repository's data ever contains). -/
def isJsWs (c : Char) : Bool :=
  c = ' ' || c = '\t' || c = '\n' || c = '\r'

/-- JS `s.trim()`. -/
def jsTrim (s : Str) : Str :=
  ((s.dropWhile isJsWs).reverse.dropWhile isJsWs).reverse

/-- JS `s.toLowerCase()` (per-character case folding). -/
def jsLower (s : Str) : Str := s.map Char.toLower

/-- JS `arr.join(' ')`. -/
def joinSpace (l : List Str) : Str := List.intercalate [' '] l

/-- JS `hay.includes(needle)`. -/
def jsIncludes (hay needle : Str) : Bool :=
  needle.isPrefixOf hay ||
    match hay with
    | [] => false
    | _ :: t => jsIncludes t needle

/-- `jsIncludes` decides the sublist-infix relation. -/
theorem jsIncludes_eq_true_iff (hay needle : Str) :
    jsIncludes hay needle = true ↔ needle <:+: hay := by
  induction hay with
  | nil =>
    simp only [jsIncludes, Bool.or_false]
    constructor
    · intro h
      have := List.isPrefixOf_iff_prefix.mp h
      exact this.isInfix
    · intro h
      have : needle = [] := List.eq_nil_of_infix_nil h
      simp [this, List.isPrefixOf_iff_prefix]
  | cons c t ih =>
    simp only [jsIncludes, Bool.or_eq_true, ih, List.isPrefixOf_iff_prefix]
    exact (List.infix_cons_iff).symm

/-- Character-wise lexicographic `≤` on strings, the model of the total
order induced by `a.localeCompare(b)` in the sort comparators. -/
def strLeB : Str → Str → Bool
  | [], _ => true
  | _ :: _, [] => false
  | a :: as, b :: bs =>
    if a < b then true
    else if b < a then false
    else strLeB as bs

theorem strLeB_refl (s : Str) : strLeB s s = true := by
  induction s with
  | nil => rfl
  | cons a as ih => simp [strLeB, ih]

theorem strLeB_total (a b : Str) : strLeB a b = true ∨ strLeB b a = true := by
  induction a generalizing b with
  | nil => left; rfl
  | cons x xs ih =>
    cases b with
    | nil => right; rfl
    | cons y ys =>
      rcases lt_trichotomy x y with h | h | h
      · left; simp [strLeB, h]
      · subst h
        rcases ih ys with h2 | h2
        · left; simp [strLeB, h2]
        · right; simp [strLeB, h2]
      · right; simp [strLeB, h, not_lt_of_gt h]

theorem strLeB_trans {a b c : Str} (h1 : strLeB a b = true)
    (h2 : strLeB b c = true) : strLeB a c = true := by
  induction a generalizing b c with
  | nil => rfl
  | cons x xs ih =>
    cases b with
    | nil => simp [strLeB] at h1
    | cons y ys =>
      cases c with
      | nil => simp [strLeB] at h2
      | cons z zs =>
        simp only [strLeB] at h1 h2 ⊢
        by_cases hxy : x < y
        · by_cases hyz : y < z
          · simp [lt_trans hxy hyz]
          · by_cases hzy : z < y
            · simp only [hyz, if_false, hzy, if_true] at h2
              cases h2
            · have : y = z := le_antisymm (not_lt.mp hzy) (not_lt.mp hyz)
              subst this
              simp [hxy]
        · by_cases hyx : y < x
          · simp only [hxy, if_false, hyx, if_true] at h1
            cases h1
          · have : x = y := le_antisymm (not_lt.mp hyx) (not_lt.mp hxy)
            subst this
            by_cases hyz : x < z
            · simp [hyz]
            · by_cases hzy : z < x
              · simp only [hyz, if_false, hzy, if_true] at h2
                cases h2
              · simp only [hxy, if_false, hyx, if_true] at h1
                simp only [hyz, if_false, hzy, if_true] at h2
                simp [hyz, hzy, ih h1 h2]

/-! ## Size limits (NoteManager constructor) -/

def maxNoteSize : Nat := 1024 * 1024
def maxTitleLength : Nat := 500
def maxTagLength : Nat := 50
def maxTagsPerNote : Nat := 20

/-! ## Tag validation (NoteManager.validateTags)

```js
return tags
    .filter(tag => typeof tag === 'string' && tag.trim().length > 0)
    .map(tag => tag.trim().substring(0, this.maxTagLength))
    .slice(0, this.maxTagsPerNote) // Limit number of tags
    .filter((tag, index, arr) => arr.indexOf(tag) === index); // Remove duplicates
```
The final `filter` keeps the first occurrence of each tag, modelled by
`dedupFirst`. -/

/-- Keep the first occurrence of each element (JS
`filter((x, i, a) => a.indexOf(x) === i)`). -/
def dedupFirstGo (seen : List Str) : List Str → List Str
  | [] => []
  | x :: xs => if x ∈ seen then dedupFirstGo seen xs else x :: dedupFirstGo (x :: seen) xs

def dedupFirst (l : List Str) : List Str := dedupFirstGo [] l

/-- NoteManager.validateTags: filter out non-strings/blank tags, trim and
cap each tag at 50 chars, truncate the list at 20, then de-duplicate. -/
def validateTags (tags : List Str) : List Str :=
  dedupFirst
    (((tags.filter (fun t => !(jsTrim t).isEmpty)).map
        (fun t => (jsTrim t).take maxTagLength)).take maxTagsPerNote)

/-- The tag pipeline in the order the claim states it (de-duplicate first,
then truncate to the 20-per-note cap); written from the claim's words, to be
compared with `validateTags`, which is written from the source. -/
def validateTagsSpecOrder (tags : List Str) : List Str :=
  (dedupFirst
    ((tags.filter (fun t => !(jsTrim t).isEmpty)).map
        (fun t => (jsTrim t).take maxTagLength))).take maxTagsPerNote

theorem dedupFirstGo_of_nodup (l : List Str) (seen : List Str)
    (hnd : l.Nodup) (hdisj : ∀ x ∈ l, x ∉ seen) : dedupFirstGo seen l = l := by
  induction l generalizing seen with
  | nil => rfl
  | cons x xs ih =>
    have hx : x ∉ seen := hdisj x (List.mem_cons_self x xs)
    simp only [dedupFirstGo, hx, if_false]
    congr 1
    apply ih (x :: seen) (List.Nodup.of_cons hnd)
    intro y hy
    simp only [List.mem_cons]
    rintro (rfl | hmem)
    · exact (List.nodup_cons.mp hnd).1 hy
    · exact hdisj y (List.mem_cons_of_mem x hy) hmem

theorem dedupFirst_of_nodup (l : List Str) (hnd : l.Nodup) : dedupFirst l = l :=
  dedupFirstGo_of_nodup l [] hnd (by simp)

theorem dedupFirstGo_length_le (seen : List Str) (l : List Str) :
    (dedupFirstGo seen l).length ≤ l.length := by
  induction l generalizing seen with
  | nil => simp [dedupFirstGo]
  | cons x xs ih =>
    simp only [dedupFirstGo]
    split
    · exact Nat.le_succ_of_le (ih seen)
    · simpa using ih (x :: seen)

/-! ## Storage initialization retry loop (StorageManager._initDatabase)

```js
while (this.connectionAttempts < this.maxConnectionAttempts) {
    try {
        this.connectionAttempts++;
        const db = await this._openDatabase();
        ... return this.db;
    } catch (error) {
        if (this.connectionAttempts >= this.maxConnectionAttempts) {
            throw new Error(`Failed to initialize database after ...`);
        }
        await new Promise(resolve => setTimeout(resolve, 1000 * this.connectionAttempts));
    }
}
```
`attempts k` tells whether the k-th call of `_openDatabase` (1-based)
succeeds; the result is the number of the successful attempt (standing for
the open database handle) or the fatal error, together with the list of
backoff delays (in ms) actually awaited, in order. -/

def maxConnectionAttempts : Nat := 3

def initDatabaseGo (attempts : Nat → Bool) (maxA : Nat) :
    (c : Nat) → (fuel : Nat) → Except String Nat × List Nat
  | _, 0 => (.error "loop exited without attempts", [])
  | c, fuel + 1 =>
    if c < maxA then
      let c' := c + 1
      if attempts c' then (.ok c', [])
      else if maxA ≤ c' then
        (.error "Failed to initialize database after 3 attempts", [])
      else
        let r := initDatabaseGo attempts maxA c' fuel
        (r.1, 1000 * c' :: r.2)
    else (.error "loop exited without attempts", [])

/-- StorageManager._initDatabase: retry `_openDatabase` while fewer than 3
attempts were made, sleeping `1000 * attemptNumber` ms after each non-final
failure. -/
def initDatabase (attempts : Nat → Bool) : Except String Nat × List Nat :=
  initDatabaseGo attempts maxConnectionAttempts 0 maxConnectionAttempts

/-! ## Data model

`RawNote`/`RawFolder` are the loosely-typed JS objects that reach the
validator (fields possibly missing, modelled with `Option`); `Note`/`Folder`
are the validated shapes held in the manager's in-memory maps.  The JS
`Boolean(x)` coercions collapse the flag fields to `Bool` directly. -/

structure RawMeta where
  wordCount : Option Int := none
  attachments : Option (List Str) := none
  links : Option (List Str) := none
  version : Option Int := none
deriving DecidableEq, Repr

structure NoteMeta where
  wordCount : Int
  attachments : List Str
  links : List Str
  version : Int
deriving DecidableEq, Repr

structure RawNote where
  id : Str
  title : Option Str := none
  content : Option Str := none
  color : Option Str := none
  tags : Option (List Str) := none
  folderId : Option Str := none
  isFavorite : Bool := false
  isShared : Bool := false
  createdAt : Option Nat := none
  modifiedAt : Option Nat := none
  isDirty : Bool := false
  metadata : Option RawMeta := none
deriving DecidableEq, Repr

structure Note where
  id : Str
  title : Str
  content : Str
  color : Str
  tags : List Str
  folderId : Option Str
  isFavorite : Bool
  isShared : Bool
  createdAt : Nat
  modifiedAt : Nat
  isDirty : Bool
  metadata : NoteMeta
deriving DecidableEq, Repr

/-- View an in-memory note as the JS object handed back to the validator
(on save every cached note passes through `validateNote` again). -/
def Note.toRaw (n : Note) : RawNote :=
  { id := n.id
    title := some n.title
    content := some n.content
    color := some n.color
    tags := some n.tags
    folderId := n.folderId
    isFavorite := n.isFavorite
    isShared := n.isShared
    createdAt := some n.createdAt
    modifiedAt := some n.modifiedAt
    isDirty := n.isDirty
    metadata := some
      { wordCount := some n.metadata.wordCount
        attachments := some n.metadata.attachments
        links := some n.metadata.links
        version := some n.metadata.version } }

structure RawFolder where
  id : Str
  name : Option Str := none
  parentId : Option Str := none
  color : Option Str := none
  createdAt : Option Nat := none
  modifiedAt : Option Nat := none
deriving DecidableEq, Repr

structure Folder where
  id : Str
  name : Str
  parentId : Option Str
  color : Str
  createdAt : Nat
  modifiedAt : Nat
deriving DecidableEq, Repr

def Folder.toRaw (f : Folder) : RawFolder :=
  { id := f.id
    name := some f.name
    parentId := f.parentId
    color := some f.color
    createdAt := some f.createdAt
    modifiedAt := some f.modifiedAt }

/-! ## Entity validation/sanitization (NoteManager) -/

/-- NoteManager.sanitizeTitle: `title.trim().substring(0, 500)`. -/
def sanitizeTitle (title : Str) : Str := (jsTrim title).take maxTitleLength

/-- NoteManager.sanitizeContent: truncate above 1MB, otherwise unchanged. -/
def sanitizeContent (content : Str) : Str :=
  if maxNoteSize < content.length then content.take maxNoteSize else content

def isHexDigit (c : Char) : Bool :=
  ('0' ≤ c && c ≤ '9') || ('A' ≤ c && c ≤ 'F') || ('a' ≤ c && c ≤ 'f')

/-- NoteManager.validateColor: `/^#[0-9A-Fa-f]{6}$/` or the white default. -/
def validateColor (color : Str) : Str :=
  match color with
  | '#' :: rest => if rest.length == 6 && rest.all isHexDigit then color else str "#ffffff"
  | _ => str "#ffffff"

/-- The JS idiom `x || dflt` on a possibly-missing string (falsy when
missing or empty). -/
def jsOrStr (o : Option Str) (d : Str) : Str :=
  match o with
  | some s => if s.isEmpty then d else s
  | none => d

/-- The JS idiom `x || null` on a possibly-missing string. -/
def jsOrNull (o : Option Str) : Option Str :=
  match o with
  | some s => if s.isEmpty then none else some s
  | none => none

/-- NoteManager.validateFolderId: null/non-string/unknown folder ids are
nulled; only live folder ids survive. -/
def validateFolderId (folders : List Folder) (folderId : Option Str) : Option Str :=
  match folderId with
  | none => none
  | some f =>
    if f.isEmpty then none
    else if folders.any (fun g => g.id == f) then some f
    else none

/-- The field-by-field body of NoteManager.validateNote (everything after
the hard id check; no field below can fail). -/
def validatedNoteOf (folders : List Folder) (now : Nat) (n : RawNote) : Note :=
  { id := n.id
    title := sanitizeTitle (n.title.getD [])
    content := sanitizeContent (n.content.getD [])
    color := validateColor (jsOrStr n.color (str "#ffffff"))
    tags := validateTags (n.tags.getD [])
    folderId := validateFolderId folders n.folderId
    isFavorite := n.isFavorite
    isShared := n.isShared
    createdAt := n.createdAt.getD now
    modifiedAt := n.modifiedAt.getD now
    isDirty := n.isDirty
    metadata :=
      { wordCount := max 0 ((n.metadata.bind (·.wordCount)).getD 0)
        attachments := (n.metadata.bind (·.attachments)).getD []
        links := (n.metadata.bind (·.links)).getD []
        version := max 1 ((n.metadata.bind (·.version)).getD 1) } }

/-- NoteManager.validateNote with `throwOnError = false` (lenient): `null`
on a missing id, the sanitized note otherwise. -/
def validateNote (folders : List Folder) (now : Nat) (n : RawNote) : Option Note :=
  if n.id.isEmpty then none else some (validatedNoteOf folders now n)

/-- NoteManager.validateNote with `throwOnError = true` (strict). -/
def validateNoteStrict (folders : List Folder) (now : Nat) (n : RawNote) :
    Except String Note :=
  if n.id.isEmpty then .error "Note ID is required and must be a string"
  else .ok (validatedNoteOf folders now n)

/-- The field-by-field body of NoteManager.validateFolder (after the hard
id/name checks). -/
def validatedFolderOf (now : Nat) (f : RawFolder) : Folder :=
  { id := f.id
    name := (jsTrim (f.name.getD [])).take maxTitleLength
    parentId := jsOrNull f.parentId
    color := validateColor (jsOrStr f.color (str "#ffffff"))
    createdAt := f.createdAt.getD now
    modifiedAt := f.modifiedAt.getD now }

/-- NoteManager.validateFolder with `throwOnError = false` (lenient): the
only hard failures are a missing id and a missing/blank name. -/
def validateFolder (now : Nat) (f : RawFolder) : Option Folder :=
  if f.id.isEmpty then none
  else if (jsTrim (f.name.getD [])).isEmpty then none
  else some (validatedFolderOf now f)

/-- NoteManager.validateFolder with `throwOnError = true` (strict). -/
def validateFolderStrict (now : Nat) (f : RawFolder) : Except String Folder :=
  if f.id.isEmpty then .error "Folder ID is required"
  else if (jsTrim (f.name.getD [])).isEmpty then .error "Folder name is required"
  else .ok (validatedFolderOf now f)

/-! ## The manager's in-memory maps (JS `Map` keyed by id) -/

/-- `Map.set`: replace in place if present (keeping insertion order),
append otherwise. -/
def setNote (n : Note) : List Note → List Note
  | [] => [n]
  | m :: rest => if m.id == n.id then n :: rest else m :: setNote n rest

def delNote (id : Str) (l : List Note) : List Note := l.filter (fun n => n.id != id)

def hasNote (id : Str) (l : List Note) : Bool := l.any (fun n => n.id == id)

def lookupNote (id : Str) (l : List Note) : Option Note := l.find? (fun n => n.id == id)

def setFolder (f : Folder) : List Folder → List Folder
  | [] => [f]
  | g :: rest => if g.id == f.id then f :: rest else g :: setFolder f rest

def delFolder (id : Str) (l : List Folder) : List Folder := l.filter (fun f => f.id != id)

def hasFolder (id : Str) (l : List Folder) : Bool := l.any (fun f => f.id == id)

/-- NoteManager.getFolderName: the folder's name, or null. -/
def getFolderName (folders : List Folder) (folderId : Option Str) : Option Str :=
  match folderId with
  | some fid => (folders.find? (fun f => f.id == fid)).map (·.name)
  | none => none

/-! ## Sequential manager state and operations

The state of one `NoteManager` wired to one `StorageManager`, with the
store's two entity object stores inlined.  `opLog` records every write
operation issued against the storage manager, in order. -/

inductive StoreOp where
  | putMany (ns : List Note) (fs : List Folder)
  | delOne (id : Str)
deriving DecidableEq, Repr

structure MState where
  notes : List Note
  folders : List Folder
  storedNotes : List Note
  storedFolders : List Folder
  saveInProgress : Bool := false
  loadInProgress : Bool := false
  opLog : List StoreOp := []
deriving DecidableEq, Repr

/-- The snapshot `saveNotes` builds: every cached note re-validated
leniently, invalid entries dropped. -/
def saveView (folders : List Folder) (now : Nat) (notes : List Note) : List Note :=
  notes.filterMap (fun n => validateNote folders now n.toRaw)

def saveViewFolders (now : Nat) (folders : List Folder) : List Folder :=
  folders.filterMap (fun f => validateFolder now f.toRaw)

/-- NoteManager.saveNotes, sequential semantics: dropped when a save is in
progress; otherwise snapshot, validate, and hand to
StorageManager.saveNotes (a put per entity, all-or-nothing on `ok`). -/
def saveNotesSeq (now : Nat) (ok : Bool) (s : MState) : Except String Unit × MState :=
  if s.saveInProgress then (.ok (), s)
  else
    let ns := saveView s.folders now s.notes
    let fs := saveViewFolders now s.folders
    if ok then
      (.ok (), { s with
        storedNotes := ns.foldl (fun st n => setNote n st) s.storedNotes,
        storedFolders := fs.foldl (fun st f => setFolder f st) s.storedFolders,
        opLog := s.opLog ++ [.putMany ns fs] })
    else
      (.error "Failed to save notes", { s with opLog := s.opLog ++ [.putMany ns fs] })

/-- NoteManager.loadNotes, sequential semantics: validate each loaded note
(against the folders known BEFORE this load) and folder leniently; entities
failing validation are skipped.  Notes are processed before folders, as in
the source. -/
def loadNotesSeq (now : Nat) (dataNotes : List RawNote) (dataFolders : List RawFolder)
    (s : MState) : MState :=
  if s.loadInProgress then s
  else
    let notes' := dataNotes.foldl
      (fun m rn =>
        match validateNote s.folders now rn with
        | some v => setNote v m
        | none => m) s.notes
    let folders' := dataFolders.foldl
      (fun m rf =>
        match validateFolder now rf with
        | some v => setFolder v m
        | none => m) s.folders
    { s with notes := notes', folders := folders' }

structure CreateOpts where
  title : Str := []
  content : Str := []
  color : Str := []
  tags : List Str := []
  folderId : Option Str := none
  isFavorite : Bool := false
  isShared : Bool := false
deriving Repr

/-- The note object literal built inside NoteManager.createNote (fields
already sanitized there, before the final strict validation). -/
def createNoteRaw (now : Nat) (newId : Str) (opts : CreateOpts) (folders : List Folder) :
    RawNote :=
  { id := newId
    title := some (sanitizeTitle opts.title)
    content := some (sanitizeContent opts.content)
    color := some (validateColor (if opts.color.isEmpty then str "#ffffff" else opts.color))
    tags := some (validateTags opts.tags)
    folderId := validateFolderId folders opts.folderId
    isFavorite := opts.isFavorite
    isShared := opts.isShared
    createdAt := some now
    modifiedAt := some now
    isDirty := false
    metadata := some { wordCount := some 0, attachments := some [], links := some [], version := some 1 } }

/-- NoteManager.createNote: build the note (fields sanitized), strictly
validate it, cache it, then fire-and-forget a save whose failure is logged
but not surfaced.  `newId` stands for `generateId()`. -/
def createNote (now : Nat) (newId : Str) (ok : Bool) (opts : CreateOpts) (s : MState) :
    Except String Note × MState :=
  match validateNoteStrict s.folders now (createNoteRaw now newId opts s.folders) with
  | .error e => (.error ("Failed to create note: " ++ e), s)
  | .ok v =>
    (.ok v, (saveNotesSeq now ok { s with notes := setNote v s.notes }).2)

/-- NoteManager.updateNote: `false` for an unknown/missing id, otherwise
strict re-validation, `modifiedAt` bump, cache update, then an awaited
save whose failure re-raises. -/
def updateNote (now : Nat) (ok : Bool) (n : Note) (s : MState) :
    Except String Bool × MState :=
  if n.id.isEmpty || !(hasNote n.id s.notes) then (.ok false, s)
  else
    match validateNoteStrict s.folders now n.toRaw with
    | .error e => (.error e, s)
    | .ok v =>
      let v' := { v with modifiedAt := now }
      let s1 := { s with notes := setNote v' s.notes }
      match saveNotesSeq now ok s1 with
      | (.ok _, s2) => (.ok true, s2)
      | (.error e, s2) => (.error e, s2)

/-- NoteManager.deleteNote, sequential semantics: throw on a falsy id;
for a cached id remove from memory first, then delete from the store
(`okDel`), then re-save the remaining collection (`okSave`); `false`
(no store traffic, no state change) for an unknown id. -/
def deleteNoteSeq (now : Nat) (okDel okSave : Bool) (id : Str) (s : MState) :
    Except String Bool × MState :=
  if id.isEmpty then (.error "Invalid note ID for deletion", s)
  else if hasNote id s.notes then
    let s1 := { s with notes := delNote id s.notes }
    if okDel then
      let s2 := { s1 with
        storedNotes := delNote id s1.storedNotes,
        opLog := s1.opLog ++ [.delOne id] }
      match saveNotesSeq now okSave s2 with
      | (.ok _, s3) => (.ok true, s3)
      | (.error e, s3) => (.error ("note deletion failed: " ++ e), s3)
    else (.error "note deletion failed", { s1 with opLog := s1.opLog ++ [.delOne id] })
  else (.ok false, s)

/-- NoteManager.createFolder: no validation at all — the folder object is
built verbatim from the arguments, cached, and a save is fired and
forgotten. -/
def createFolder (now : Nat) (newId : Str) (ok : Bool) (name : Str)
    (parentId : Option Str) (s : MState) : Folder × MState :=
  let folder : Folder :=
    { id := newId, name := name, parentId := parentId,
      color := str "#ffffff", createdAt := now, modifiedAt := now }
  let s1 := { s with folders := setFolder folder s.folders }
  (folder, (saveNotesSeq now ok s1).2)

/-- NoteManager.deleteFolder: null the folder reference of every member
note (through updateNote, whose store errors the loop ignores), drop the
folder, save. -/
def deleteFolder (now : Nat) (ok : Bool) (fid : Str) (s : MState) : Bool × MState :=
  if hasFolder fid s.folders then
    let members := s.notes.filter (fun n => n.folderId == some fid)
    let s1 := members.foldl (fun st n => (updateNote now ok { n with folderId := none } st).2) s
    let s2 := { s1 with folders := delFolder fid s1.folders }
    (true, (saveNotesSeq now ok s2).2)
  else (false, s)

/-! ## Repository query evaluation (NoteManager.getFilteredNotes)

`strip` abstracts `stripHTML`, which the source implements with the DOM
(`div.innerHTML = html; return div.textContent`); every theorem below holds
for an arbitrary stripper.  The filter configuration carries the manager's
instance fields.  JS `Array.prototype.sort` is stable with a consistent
comparator, which for each branch of the source's comparator is exactly the
stable insertion sort by the corresponding total preorder. -/

structure FilterCfg where
  searchQuery : Str := []
  quickFilter : Str := str "all"
  folderFilter : Option Str := none
  tagFilter : Option Str := none
  sortBy : Str := str "modified"
deriving Repr

/-- Truthiness of a nullable-string instance field (`if (this.folderFilter)`). -/
def jsTruthy (o : Option Str) : Bool :=
  match o with
  | some s => !s.isEmpty
  | none => false

def weekMs : Nat := 7 * 24 * 60 * 60 * 1000

/-- The comparator of `getFilteredNotes`' sort, as the boolean preorder
"a may come before b" (comparator value ≤ 0). -/
def sortLe (folders : List Folder) (sortBy : Str) (a b : Note) : Bool :=
  if sortBy == str "created" then decide (b.createdAt ≤ a.createdAt)
  else if sortBy == str "title" then strLeB a.title b.title
  else if sortBy == str "folder" then
    strLeB ((getFolderName folders a.folderId).getD [])
      ((getFolderName folders b.folderId).getD [])
  else decide (b.modifiedAt ≤ a.modifiedAt)

/-- NoteManager.getFilteredNotes: quick filter, then folder filter, then
tag filter, then the live substring search, then the sort. -/
def getFilteredNotes (strip : Str → Str) (now : Nat) (cfg : FilterCfg)
    (folders : List Folder) (notes : List Note) : List Note :=
  let l1 :=
    if cfg.quickFilter == str "recent" then
      notes.filter (fun n => decide (now - weekMs ≤ n.modifiedAt))
    else if cfg.quickFilter == str "favorites" then notes.filter (·.isFavorite)
    else if cfg.quickFilter == str "shared" then notes.filter (·.isShared)
    else notes
  let l2 :=
    if jsTruthy cfg.folderFilter then l1.filter (fun n => n.folderId == cfg.folderFilter)
    else l1
  let l3 :=
    if jsTruthy cfg.tagFilter then
      l2.filter (fun n => n.tags.contains (cfg.tagFilter.getD []))
    else l2
  let l4 :=
    if !(jsTrim cfg.searchQuery).isEmpty then
      let query := jsTrim (jsLower cfg.searchQuery)
      l3.filter (fun n =>
        jsIncludes (jsLower n.title) query ||
        jsIncludes (jsLower (strip n.content)) query ||
        jsIncludes (jsLower (joinSpace n.tags)) query)
    else l3
  List.insertionSort (fun a b => sortLe folders cfg.sortBy a b = true) l4

/-! ## Search Engine (SearchManager) -/

structure SearchFilters where
  includeTitle : Bool := true
  includeContent : Bool := true
  includeTags : Bool := true
deriving Repr

/-- SearchManager.parseSearchQuery: split on spaces outside double quotes,
trimming and discarding blank chunks; quote characters are kept in the
emitted terms. -/
def parseSearchQueryGo (current : Str) (inQuotes : Bool) : Str → List Str
  | [] => if (jsTrim current.reverse).isEmpty then [] else [jsTrim current.reverse]
  | c :: rest =>
    if c = '"' then parseSearchQueryGo (c :: current) (!inQuotes) rest
    else if c = ' ' && !inQuotes then
      if (jsTrim current.reverse).isEmpty then parseSearchQueryGo current inQuotes rest
      else jsTrim current.reverse :: parseSearchQueryGo [] inQuotes rest
    else parseSearchQueryGo (c :: current) inQuotes rest

def parseSearchQuery (query : Str) : List Str := parseSearchQueryGo [] false query

/-- The concatenated search text of the fields enabled by the filter
configuration (shared body of SearchManager.noteContainsTerm and
SearchManager.noteContainsPhrase). -/
def noteSearchText (strip : Str → Str) (f : SearchFilters) (n : Note) : Str :=
  (if f.includeTitle then jsLower n.title ++ [' '] else []) ++
  (if f.includeContent then jsLower (strip n.content) ++ [' '] else []) ++
  (if f.includeTags then jsLower (joinSpace n.tags) else [])

/-- SearchManager.noteContainsTerm. -/
def noteContainsTerm (strip : Str → Str) (f : SearchFilters) (n : Note) (term : Str) : Bool :=
  jsIncludes (noteSearchText strip f n) term

/-- SearchManager.noteContainsPhrase (textually identical body in the
source). -/
def noteContainsPhrase (strip : Str → Str) (f : SearchFilters) (n : Note) (phrase : Str) : Bool :=
  jsIncludes (noteSearchText strip f n) phrase

/-- One term of SearchManager.performTextSearch's `every`: a leading `-`
excludes, a double-quoted term is an exact phrase, anything else is a plain
term. -/
def termMatches (strip : Str → Str) (f : SearchFilters) (n : Note) (term : Str) : Bool :=
  if (str "-").isPrefixOf term then
    !(noteContainsTerm strip f n (jsLower (term.drop 1)))
  else if (str "\"").isPrefixOf term && term.getLast? == some '"' then
    noteContainsPhrase strip f n (jsLower (term.drop 1).dropLast)
  else
    noteContainsTerm strip f n (jsLower term)

/-- SearchManager.performTextSearch: keep the notes for which every parsed
term matches. -/
def performTextSearch (strip : Str → Str) (notes : List Note) (query : Str)
    (f : SearchFilters) : List Note :=
  notes.filter (fun n => (parseSearchQuery query).all (termMatches strip f n))

/-! ## Claim C2 — tag de-duplication/truncation order -/

/-- 21 tags, all non-blank and short, with one duplicated pair in the first
twenty. -/
def c2Tags : List Str :=
  [str "a", str "a", str "b", str "c", str "d", str "e", str "f", str "g",
   str "h", str "i", str "j", str "k", str "l", str "m", str "n", str "o",
   str "p", str "q", str "r", str "s", str "t"]

/-- C2, counterexample: validateTags truncates to the 20-tag cap BEFORE
de-duplicating, not after.  On 21 tags whose first twenty contain a
duplicate, the source pipeline returns 19 tags while the claimed
dedupe-then-truncate pipeline returns 20. -/
theorem c2_counterexample :
    validateTags c2Tags ≠ validateTagsSpecOrder c2Tags ∧
    (validateTags c2Tags).length = 19 ∧
    (validateTagsSpecOrder c2Tags).length = 20 := by decide

/-- C2 (amended): validation truncates the trimmed, non-blank tag list to
the 20-per-note cap first and de-duplicates (keeping first occurrences)
second; the result never exceeds 20 tags, and on an input of distinct,
already-trimmed, non-blank, ≤50-char tags it is exactly the first 20 tags
in their original order. -/
theorem c2_amended (tags : List Str)
    (hclean : ∀ t ∈ tags, jsTrim t = t ∧ t ≠ [] ∧ t.length ≤ maxTagLength)
    (hnd : tags.Nodup) :
    validateTags tags = tags.take maxTagsPerNote ∧
    (validateTags tags).length = min maxTagsPerNote tags.length ∧
    ∀ l : List Str, (validateTags l).length ≤ maxTagsPerNote := by
  have hfilter : tags.filter (fun t => !(jsTrim t).isEmpty) = tags := by
    rw [List.filter_eq_self]
    intro t ht
    rcases hclean t ht with ⟨htrim, hne, _⟩
    simp [htrim, List.isEmpty_iff, hne]
  have hmap : (tags.map (fun t => (jsTrim t).take maxTagLength)) = tags := by
    have : ∀ t ∈ tags, (jsTrim t).take maxTagLength = t := by
      intro t ht
      rcases hclean t ht with ⟨htrim, _, hlen⟩
      rw [htrim]
      exact List.take_of_length_le hlen
    calc tags.map (fun t => (jsTrim t).take maxTagLength)
        = tags.map id := List.map_congr_left this
      _ = tags := List.map_id tags
  have hmain : validateTags tags = tags.take maxTagsPerNote := by
    unfold validateTags
    rw [hfilter, hmap]
    exact dedupFirst_of_nodup _ (hnd.sublist (List.take_sublist _ _))
  refine ⟨hmain, ?_, ?_⟩
  · rw [hmain, List.length_take]
  · intro l
    unfold validateTags dedupFirst
    exact le_trans (dedupFirstGo_length_le _ _) (by simp [List.length_take])

/-- 25 distinct, clean tags. -/
def c2Tags25 : List Str :=
  [str "a", str "b", str "c", str "d", str "e", str "f", str "g", str "h",
   str "i", str "j", str "k", str "l", str "m", str "n", str "o", str "p",
   str "q", str "r", str "s", str "t", str "u", str "v", str "w", str "x",
   str "y"]

theorem c2_amended_witness :
    validateTags c2Tags25 = c2Tags25.take maxTagsPerNote ∧
    (validateTags c2Tags25).length = 20 :=
  ⟨(c2_amended c2Tags25 (by decide) (by decide)).1,
   by have h := (c2_amended c2Tags25 (by decide) (by decide)).2.1; simpa using h⟩

/-! ## Claim C4 — store-initialization retry policy -/

/-- C4, counterexample: with every attempt failing, exactly three attempts
are made with backoff delays 1000ms and 2000ms only — contrary to the
claimed "1s, 2s, then 3s" backoff sequence, a 3s delay never occurs before
the fatal error. -/
theorem c4_counterexample :
    initDatabase (fun _ => false) =
      (.error "Failed to initialize database after 3 attempts", [1000, 2000]) := by
  rfl

/-- C4 (amended): initialization makes up to 3 attempts in total, with
linear backoff of 1s then 2s between consecutive attempts; after the third
failed attempt a fatal error is reported, and as soon as any attempt
succeeds initialization resolves with the open store. -/
theorem c4_amended (attempts : Nat → Bool) :
    (attempts 1 = true → initDatabase attempts = (.ok 1, [])) ∧
    (attempts 1 = false → attempts 2 = true →
      initDatabase attempts = (.ok 2, [1000])) ∧
    (attempts 1 = false → attempts 2 = false → attempts 3 = true →
      initDatabase attempts = (.ok 3, [1000, 2000])) ∧
    (attempts 1 = false → attempts 2 = false → attempts 3 = false →
      initDatabase attempts =
        (.error "Failed to initialize database after 3 attempts", [1000, 2000])) := by
  refine ⟨?_, ?_, ?_, ?_⟩ <;>
    intros <;>
    simp [initDatabase, initDatabaseGo, maxConnectionAttempts, *]

theorem c4_amended_witness :
    initDatabase (fun k => decide (k = 2)) = (.ok 2, [1000]) :=
  (c4_amended (fun k => decide (k = 2))).2.1 (by decide) (by decide)


/-! ## Lemmas about the id-keyed map operations -/

theorem lookupNote_setNote_self {v : Note} {i : Str} (l : List Note) (h : v.id = i) :
    lookupNote i (setNote v l) = some v := by
  induction l with
  | nil => simp [setNote, lookupNote, h]
  | cons m rest ih =>
    by_cases hm : m.id = v.id
    · simp [setNote, hm, lookupNote, h]
    · have hm2 : (m.id == v.id) = false := by simp [hm]
      have hm3 : (m.id == i) = false := by simp [h ▸ hm]
      simpa [setNote, hm2, lookupNote, hm3] using ih

theorem lookupNote_setNote_other {v : Note} {i : Str} (l : List Note) (h : v.id ≠ i) :
    lookupNote i (setNote v l) = lookupNote i l := by
  induction l with
  | nil => simp [setNote, lookupNote, fun hc => h hc]
  | cons m rest ih =>
    by_cases hm : m.id = v.id
    · have hmi : (m.id == i) = false := by simp [hm, h]
      have hvi : (v.id == i) = false := by simp [h]
      simp [setNote, hm, lookupNote, hmi, hvi]
    · have hm2 : (m.id == v.id) = false := by simp [hm]
      by_cases hmi : m.id = i
      · have hmi2 : (m.id == i) = true := by simp [hmi]
        simp only [setNote, hm2, Bool.false_eq_true, if_false, lookupNote]
        simp [List.find?_cons, hmi2]
      · have hmi2 : (m.id == i) = false := by simp [hmi]
        simpa [setNote, hm2, lookupNote, hmi2] using ih

theorem ids_setNote_of_mem {v : Note} (l : List Note)
    (h : v.id ∈ l.map (fun n => n.id)) :
    (setNote v l).map (fun n => n.id) = l.map (fun n => n.id) := by
  induction l with
  | nil => simp at h
  | cons m rest ih =>
    by_cases hm : m.id = v.id
    · simp [setNote, hm]
    · have hm2 : (m.id == v.id) = false := by simp [hm]
      have hv : v.id ∈ rest.map (fun n => n.id) := by
        rcases List.mem_map.mp h with ⟨w, hw, hwid⟩
        rcases List.mem_cons.mp hw with hw2 | hw2
        · exact absurd (hw2 ▸ hwid) (fun hc => hm hc)
        · exact List.mem_map.mpr ⟨w, hw2, hwid⟩
      simp [setNote, hm2, ih hv]

theorem mem_setNote_elim {x v : Note} {l : List Note} (h : x ∈ setNote v l) :
    x = v ∨ x ∈ l := by
  induction l with
  | nil => simpa [setNote] using h
  | cons m rest ih =>
    by_cases hm : (m.id == v.id) = true
    · simp only [setNote, hm, if_true] at h
      rcases List.mem_cons.mp h with h2 | h2
      · exact Or.inl h2
      · exact Or.inr (List.mem_cons_of_mem m h2)
    · simp only [setNote, hm, Bool.false_eq_true, if_false] at h
      rcases List.mem_cons.mp h with h2 | h2
      · exact Or.inr (h2 ▸ List.mem_cons_self m rest)
      · rcases ih h2 with h3 | h3
        · exact Or.inl h3
        · exact Or.inr (List.mem_cons_of_mem m h3)

theorem mem_setNote_self (v : Note) (l : List Note) : v ∈ setNote v l := by
  induction l with
  | nil => simp [setNote]
  | cons m rest ih =>
    by_cases hm : (m.id == v.id) = true
    · simp [setNote, hm]
    · simp only [setNote, hm, Bool.false_eq_true, if_false]
      exact List.mem_cons_of_mem m ih

theorem lookupNote_eq_some_of_mem {x : Note} {l : List Note}
    (hnd : (l.map (fun n => n.id)).Nodup) (hx : x ∈ l) :
    lookupNote x.id l = some x := by
  induction l with
  | nil => simp at hx
  | cons m rest ih =>
    rcases List.mem_cons.mp hx with hx2 | hx2
    · subst hx2
      simp [lookupNote]
    · have hne : m.id ≠ x.id := by
        intro hc
        have : m.id ∈ rest.map (fun n => n.id) :=
          hc ▸ List.mem_map.mpr ⟨x, hx2, rfl⟩
        exact (List.nodup_cons.mp (by simpa using hnd)).1 this
      have hb : (m.id == x.id) = false := by simp [hne]
      have hnd2 : (rest.map (fun n => n.id)).Nodup :=
        (List.nodup_cons.mp (by simpa using hnd)).2
      simpa [lookupNote, hb] using ih hnd2 hx2

theorem mem_of_lookupNote_eq_some {x : Note} {i : Str} {l : List Note}
    (h : lookupNote i l = some x) : x ∈ l :=
  List.mem_of_find?_eq_some h

theorem eq_of_mem_of_same_id {x y : Note} {l : List Note}
    (hnd : (l.map (fun n => n.id)).Nodup) (hx : x ∈ l) (hy : y ∈ l)
    (hid : x.id = y.id) : x = y := by
  have h1 := lookupNote_eq_some_of_mem hnd hx
  have h2 := lookupNote_eq_some_of_mem hnd hy
  rw [hid] at h1
  rw [h1] at h2
  exact Option.some.inj h2

/-! Folder-map versions. -/

theorem ids_delFolder {i : Str} (l : List Folder) :
    i ∉ (delFolder i l).map (fun f => f.id) := by
  intro h
  rcases List.mem_map.mp h with ⟨f, hf, hfid⟩
  have := List.mem_filter.mp hf
  simp [hfid] at this

theorem mem_delFolder_of_mem {g : Folder} {i : Str} {l : List Folder}
    (hg : g ∈ l) (hne : g.id ≠ i) : g ∈ delFolder i l :=
  List.mem_filter.mpr ⟨hg, by simp [hne]⟩

theorem ids_setFolder_subset {x : Str} {v : Folder} (l : List Folder)
    (h : x ∈ (setFolder v l).map (fun f => f.id)) :
    x = v.id ∨ x ∈ l.map (fun f => f.id) := by
  induction l with
  | nil =>
    simp [setFolder] at h
    exact Or.inl h
  | cons m rest ih =>
    by_cases hm : (m.id == v.id) = true
    · simp only [setFolder, hm, if_true, List.map_cons] at h
      rcases List.mem_cons.mp h with h2 | h2
      · exact Or.inl h2
      · exact Or.inr (List.mem_cons_of_mem _ h2)
    · simp only [setFolder, hm, Bool.false_eq_true, if_false, List.map_cons] at h
      rcases List.mem_cons.mp h with h2 | h2
      · exact Or.inr (by simp [h2])
      · rcases ih h2 with h3 | h3
        · exact Or.inl h3
        · exact Or.inr (List.mem_cons_of_mem _ h3)

theorem ids_foldl_setFolder_subset {x : Str} (l : List Folder) (st : List Folder)
    (h : x ∈ ((l.foldl (fun acc f => setFolder f acc) st).map (fun f => f.id))) :
    x ∈ l.map (fun f => f.id) ∨ x ∈ st.map (fun f => f.id) := by
  induction l generalizing st with
  | nil => exact Or.inr h
  | cons g rest ih =>
    rcases ih (setFolder g st) h with h2 | h2
    · exact Or.inl (List.mem_cons_of_mem _ h2)
    · rcases ids_setFolder_subset st h2 with h3 | h3
      · exact Or.inl (by simp [h3])
      · exact Or.inr h3

theorem ids_setNote_subset {x : Str} {v : Note} (l : List Note)
    (h : x ∈ (setNote v l).map (fun n => n.id)) :
    x = v.id ∨ x ∈ l.map (fun n => n.id) := by
  induction l with
  | nil =>
    simp [setNote] at h
    exact Or.inl h
  | cons m rest ih =>
    by_cases hm : (m.id == v.id) = true
    · simp only [setNote, hm, if_true, List.map_cons] at h
      rcases List.mem_cons.mp h with h2 | h2
      · exact Or.inl h2
      · exact Or.inr (List.mem_cons_of_mem _ h2)
    · simp only [setNote, hm, Bool.false_eq_true, if_false, List.map_cons] at h
      rcases List.mem_cons.mp h with h2 | h2
      · exact Or.inr (by simp [h2])
      · rcases ih h2 with h3 | h3
        · exact Or.inl h3
        · exact Or.inr (List.mem_cons_of_mem _ h3)

theorem ids_foldl_setNote_subset {x : Str} (l : List Note) (st : List Note)
    (h : x ∈ ((l.foldl (fun acc n => setNote n acc) st).map (fun n => n.id))) :
    x ∈ l.map (fun n => n.id) ∨ x ∈ st.map (fun n => n.id) := by
  induction l generalizing st with
  | nil => exact Or.inr h
  | cons g rest ih =>
    rcases ih (setNote g st) h with h2 | h2
    · exact Or.inl (List.mem_cons_of_mem _ h2)
    · rcases ids_setNote_subset st h2 with h3 | h3
      · exact Or.inl (by simp [h3])
      · exact Or.inr h3

theorem lookupNote_foldl_setNote_of_not_mem (l : List Note) (st : List Note) (i : Str)
    (h : ∀ w ∈ l, w.id ≠ i) :
    lookupNote i (l.foldl (fun acc n => setNote n acc) st) = lookupNote i st := by
  induction l generalizing st with
  | nil => rfl
  | cons g rest ih =>
    have hg : g.id ≠ i := h g (List.mem_cons_self g rest)
    rw [List.foldl_cons, ih (setNote g st) (fun w hw => h w (List.mem_cons_of_mem g hw)),
      lookupNote_setNote_other st hg]

theorem lookupNote_foldl_setNote_unique (l : List Note) (st : List Note) (v : Note)
    (hv : v ∈ l) (huniq : ∀ w ∈ l, w.id = v.id → w = v) :
    lookupNote v.id (l.foldl (fun acc n => setNote n acc) st) = some v := by
  induction l generalizing st with
  | nil => simp at hv
  | cons g rest ih =>
    rw [List.foldl_cons]
    by_cases hvr : v ∈ rest
    · exact ih (setNote g st) hvr (fun w hw => huniq w (List.mem_cons_of_mem g hw))
    · have hvg : v = g := by
        rcases List.mem_cons.mp hv with h2 | h2
        · exact h2
        · exact absurd h2 hvr
      subst hvg
      have hrest : ∀ w ∈ rest, w.id ≠ v.id := by
        intro w hw hc
        exact hvr ((huniq w (List.mem_cons_of_mem v hw) hc) ▸ hw)
      rw [lookupNote_foldl_setNote_of_not_mem rest (setNote v st) v.id hrest,
        lookupNote_setNote_self st rfl]

/-! ## Basic facts about saveNotesSeq / updateNote -/

theorem saveNotesSeq_notes (now : Nat) (ok : Bool) (s : MState) :
    (saveNotesSeq now ok s).2.notes = s.notes ∧
    (saveNotesSeq now ok s).2.folders = s.folders := by
  unfold saveNotesSeq
  by_cases h : s.saveInProgress <;> cases ok <;> simp [h]

/-- validateNote preserves the id. -/
theorem validateNote_id {folders : List Folder} {now : Nat} {r : RawNote} {v : Note}
    (h : validateNote folders now r = some v) : v.id = r.id := by
  unfold validateNote at h
  by_cases hid : r.id.isEmpty <;> simp [hid] at h
  subst h
  rfl

theorem validateNoteStrict_of_ne {folders : List Folder} {now : Nat} {r : RawNote}
    (h : ¬ r.id.isEmpty = true) :
    validateNoteStrict folders now r = .ok (validatedNoteOf folders now r) := by
  unfold validateNoteStrict
  simp [h]

/-- Unfolding updateNote for a present, nonempty id: the cache always ends
up with the validated, modifiedAt-bumped copy, whatever the save does. -/
theorem updateNote_unfold (now : Nat) (ok : Bool) (n : Note) (s : MState)
    (hid : n.id ≠ []) (hmem : hasNote n.id s.notes = true) :
    updateNote now ok n s =
      (let v' := { validatedNoteOf s.folders now n.toRaw with modifiedAt := now }
       let s1 := { s with notes := setNote v' s.notes }
       match saveNotesSeq now ok s1 with
       | (.ok _, s2) => (.ok true, s2)
       | (.error e, s2) => (.error e, s2)) := by
  have hne : ¬ n.id.isEmpty = true := by simpa [List.isEmpty_iff] using hid
  have hraw : ¬ (n.toRaw).id.isEmpty = true := hne
  unfold updateNote
  rw [validateNoteStrict_of_ne hraw]
  simp [hne, hmem]

theorem nodup_ids_tail {m : Note} {rest : List Note}
    (hnd : ((m :: rest).map (fun n => n.id)).Nodup) :
    m.id ∉ rest.map (fun n => n.id) ∧ (rest.map (fun n => n.id)).Nodup := by
  rw [List.map_cons, List.nodup_cons] at hnd
  exact hnd

theorem nodup_folder_ids_tail {m : Folder} {rest : List Folder}
    (hnd : ((m :: rest).map (fun f => f.id)).Nodup) :
    m.id ∉ rest.map (fun f => f.id) ∧ (rest.map (fun f => f.id)).Nodup := by
  rw [List.map_cons, List.nodup_cons] at hnd
  exact hnd

theorem eq_setNote_of_same_id {m v : Note} {l : List Note}
    (hnd : (l.map (fun n => n.id)).Nodup)
    (hm : m ∈ setNote v l) (hid : m.id = v.id) : m = v := by
  induction l with
  | nil =>
    simpa [setNote] using hm
  | cons a rest ih =>
    by_cases ha : (a.id == v.id) = true
    · simp only [setNote, ha, if_true] at hm
      rcases List.mem_cons.mp hm with h2 | h2
      · exact h2
      · exfalso
        have hav : a.id = v.id := by simpa using ha
        have : a.id ∈ rest.map (fun n => n.id) :=
          (hav.trans hid.symm) ▸ List.mem_map.mpr ⟨m, h2, rfl⟩
        exact (nodup_ids_tail hnd).1 this
    · simp only [setNote, ha, Bool.false_eq_true, if_false] at hm
      rcases List.mem_cons.mp hm with h2 | h2
      · exfalso
        have : a.id = v.id := h2 ▸ hid
        simp [this] at ha
      · exact ih (nodup_ids_tail hnd).2 h2

theorem mem_setFolder_self (v : Folder) (l : List Folder) : v ∈ setFolder v l := by
  induction l with
  | nil => simp [setFolder]
  | cons m rest ih =>
    by_cases hm : (m.id == v.id) = true
    · simp [setFolder, hm]
    · simp only [setFolder, hm, Bool.false_eq_true, if_false]
      exact List.mem_cons_of_mem m ih

theorem validateFolder_id {now : Nat} {r : RawFolder} {v : Folder}
    (h : validateFolder now r = some v) : v.id = r.id := by
  unfold validateFolder at h
  by_cases h1 : r.id.isEmpty = true
  · rw [if_pos h1] at h
    cases h
  · rw [if_neg h1] at h
    by_cases h2 : (jsTrim (r.name.getD [])).isEmpty = true
    · rw [if_pos h2] at h
      cases h
    · rw [if_neg h2] at h
      have h3 := Option.some.inj h
      subst h3
      rfl

theorem eq_folder_of_mem_of_same_id {x y : Folder} {l : List Folder}
    (hnd : (l.map (fun f => f.id)).Nodup) (hx : x ∈ l) (hy : y ∈ l)
    (hid : x.id = y.id) : x = y := by
  induction l with
  | nil => simp at hx
  | cons m rest ih =>
    have hnd2 := nodup_folder_ids_tail hnd
    rcases List.mem_cons.mp hx with hx2 | hx2 <;> rcases List.mem_cons.mp hy with hy2 | hy2
    · exact hx2.trans hy2.symm
    · exfalso
      exact hnd2.1 ((hx2 ▸ hid) ▸ List.mem_map.mpr ⟨y, hy2, rfl⟩)
    · exfalso
      exact hnd2.1 ((hy2 ▸ hid.symm) ▸ List.mem_map.mpr ⟨x, hx2, rfl⟩)
    · exact ih hnd2.2 hx2 hy2

/-! ## Well-formed (already-validated) cached notes

`validateNote` is the identity on these, which is what makes re-validation
on update/save idempotent. -/

def WellFormed (folders : List Folder) (n : Note) : Prop :=
  n.id ≠ [] ∧
  jsTrim n.title = n.title ∧ n.title.length ≤ maxTitleLength ∧
  n.content.length ≤ maxNoteSize ∧
  validateColor n.color = n.color ∧ n.color ≠ [] ∧
  validateTags n.tags = n.tags ∧
  validateFolderId folders n.folderId = n.folderId ∧
  0 ≤ n.metadata.wordCount ∧ 1 ≤ n.metadata.version

instance (folders : List Folder) (n : Note) : Decidable (WellFormed folders n) := by
  unfold WellFormed
  infer_instance

theorem validatedNoteOf_toRaw {folders : List Folder} {now : Nat} {n : Note}
    (h : WellFormed folders n) : validatedNoteOf folders now n.toRaw = n := by
  obtain ⟨hid, htrim, htlen, hclen, hcolor, hcne, htags, hfid, hwc, hver⟩ := h
  have h1 : sanitizeTitle n.title = n.title := by
    unfold sanitizeTitle
    rw [htrim]
    exact List.take_of_length_le htlen
  have h2 : sanitizeContent n.content = n.content := by
    unfold sanitizeContent
    simp [Nat.not_lt.mpr hclen]
  have h3 : jsOrStr (some n.color) (str "#ffffff") = n.color := by
    simp [jsOrStr, List.isEmpty_iff, hcne]
  cases n with
  | mk id title content color tags folderId isFav isSh cAt mAt dirty md =>
    cases md with
    | mk wc att lks ver =>
      simp only [Note.toRaw] at *
      simp [validatedNoteOf, h1, h2, h3, hcolor, htags, hfid,
        max_eq_right hwc, max_eq_right hver]

theorem WellFormed_modifiedAt {folders : List Folder} {n : Note} (t : Nat)
    (h : WellFormed folders n) : WellFormed folders { n with modifiedAt := t } := by
  obtain ⟨hid, htrim, htlen, hclen, hcolor, hcne, htags, hfid, hwc, hver⟩ := h
  exact ⟨hid, htrim, htlen, hclen, hcolor, hcne, htags, hfid, hwc, hver⟩

theorem validateNote_of_wellFormed {folders : List Folder} {now : Nat} {n : Note}
    (h : WellFormed folders n) : validateNote folders now n.toRaw = some n := by
  have hne : ¬ (n.toRaw).id.isEmpty = true := by
    simpa [Note.toRaw, List.isEmpty_iff] using h.1
  unfold validateNote
  simp [hne, validatedNoteOf_toRaw h]

/-! ## Claim C3 — update semantics and the dirty flag on failure -/

/-- A minimal valid cached note. -/
def nA : Note :=
  { id := str "n1", title := [], content := [], color := str "#ffffff",
    tags := [], folderId := none, isFavorite := false, isShared := false,
    createdAt := 1, modifiedAt := 1, isDirty := false,
    metadata := { wordCount := 0, attachments := [], links := [], version := 1 } }

def c3State : MState :=
  { notes := [nA], folders := [], storedNotes := [nA], storedFolders := [] }

/-- C3, counterexample: updating a note whose dirty flag is false while the
store fails re-raises the failure, but the in-memory copy keeps
`isDirty = false` — the dirty flag is NOT left set. -/
theorem c3_counterexample :
    (updateNote 5 false nA c3State).1 = .error "Failed to save notes" ∧
    ((updateNote 5 false nA c3State).2.notes.map
        (fun n => (n.id, n.isDirty, n.modifiedAt))) = [(str "n1", false, 5)] :=
  ⟨rfl, rfl⟩

/-- C3 (amended): for every cached well-formed note, updateNote strictly
re-validates it, bumps `modifiedAt` to now, writes the updated copy into
the cache, and only then awaits persistence; on success the persisted
collection contains the updated copy, and on a persistence failure the
error is re-raised while the cache keeps the updated copy with its dirty
flag equal to the caller-supplied value (not forced to true). -/
theorem c3_amended (s : MState) (n : Note) (now : Nat) (ok : Bool)
    (hwf : WellFormed s.folders n)
    (hmem : hasNote n.id s.notes = true)
    (hnd : (s.notes.map (fun m => m.id)).Nodup)
    (hflag : s.saveInProgress = false) :
    (updateNote now ok n s).2.notes = setNote { n with modifiedAt := now } s.notes ∧
    lookupNote n.id (updateNote now ok n s).2.notes = some { n with modifiedAt := now } ∧
    (ok = true → (updateNote now ok n s).1 = .ok true ∧
      lookupNote n.id (updateNote now ok n s).2.storedNotes
        = some { n with modifiedAt := now }) ∧
    (ok = false → (updateNote now ok n s).1 = .error "Failed to save notes" ∧
      ({ n with modifiedAt := now } : Note).isDirty = n.isDirty ∧
      (updateNote now ok n s).2.storedNotes = s.storedNotes) := by
  have hid : n.id ≠ [] := hwf.1
  have hv : validatedNoteOf s.folders now n.toRaw = n := validatedNoteOf_toRaw hwf
  have hvid : ({ n with modifiedAt := now } : Note).id = n.id := rfl
  have hlook : lookupNote n.id (setNote { n with modifiedAt := now } s.notes)
      = some { n with modifiedAt := now } :=
    lookupNote_setNote_self s.notes hvid
  have hstored : lookupNote n.id
      ((saveView s.folders now (setNote { n with modifiedAt := now } s.notes)).foldl
        (fun acc m => setNote m acc) s.storedNotes)
      = some { n with modifiedAt := now } := by
    have hwf2 : WellFormed s.folders { n with modifiedAt := now } :=
      WellFormed_modifiedAt now hwf
    have hmemv : ({ n with modifiedAt := now } : Note)
        ∈ saveView s.folders now (setNote { n with modifiedAt := now } s.notes) :=
      List.mem_filterMap.mpr
        ⟨{ n with modifiedAt := now }, mem_setNote_self _ s.notes,
         validateNote_of_wellFormed hwf2⟩
    have huniq : ∀ w ∈ saveView s.folders now (setNote { n with modifiedAt := now } s.notes),
        w.id = ({ n with modifiedAt := now } : Note).id → w = { n with modifiedAt := now } := by
      intro w hw hwid
      rcases List.mem_filterMap.mp hw with ⟨m, hm, hval⟩
      have hwm : w.id = m.id := validateNote_id hval
      have hmid : m.id = ({ n with modifiedAt := now } : Note).id := hwm ▸ hwid
      have hm2 : m = { n with modifiedAt := now } := eq_setNote_of_same_id hnd hm hmid
      subst hm2
      have := @validateNote_of_wellFormed s.folders now _ hwf2
      rw [this] at hval
      exact (Option.some.inj hval).symm
    have := lookupNote_foldl_setNote_unique _ s.storedNotes _ hmemv huniq
    simpa using this
  rw [updateNote_unfold now ok n s hid hmem]
  simp only [hv]
  cases ok with
  | true =>
    refine ⟨?_, ?_, ?_, ?_⟩ <;>
      simp [saveNotesSeq, hflag, hlook, hstored]
  | false =>
    refine ⟨?_, ?_, ?_, ?_⟩ <;>
      simp [saveNotesSeq, hflag, hlook]

theorem c3_amended_witness :
    (updateNote 7 true nA c3State).1 = .ok true ∧
    lookupNote (str "n1") (updateNote 7 true nA c3State).2.storedNotes
      = some { nA with modifiedAt := 7 } :=
  (c3_amended c3State nA 7 true (by decide) (by decide) (by decide) rfl).2.2.1 rfl

/-! ## Claim C8 — timestamp invariant and monotonicity -/

/-- A raw persisted note whose modified timestamp precedes its created
timestamp. -/
def rawBad : RawNote := { id := str "bad", createdAt := some 100, modifiedAt := some 50 }

def emptyState : MState :=
  { notes := [], folders := [], storedNotes := [], storedFolders := [] }

/-- C8, counterexample: lenient validation during bulk load does NOT
enforce `modifiedAt ≥ createdAt`; a persisted note with
`createdAt = 100, modifiedAt = 50` is admitted into the cache unchanged,
violating the claimed invariant. -/
theorem c8_counterexample :
    ((loadNotesSeq 7 [rawBad] [] emptyState).notes.map
        (fun n => (n.id, n.createdAt, n.modifiedAt))) = [(str "bad", 100, 50)] := rfl

/-- C8 (amended): notes created through createNote start with
`createdAt = modifiedAt = now`, and updateNote preserves `createdAt` while
setting `modifiedAt := now`; hence under a non-decreasing clock both
timestamps are monotone and `modifiedAt ≥ createdAt` is preserved for
entities that only pass through create/update.  Lenient bulk-load
validation does not enforce the inequality (see the counterexample). -/
theorem c8_amended :
    (∀ (now : Nat) (newId : Str) (ok : Bool) (opts : CreateOpts) (s : MState),
      newId ≠ [] →
      ∃ v : Note, (createNote now newId ok opts s).1 = .ok v ∧
        v.createdAt = now ∧ v.modifiedAt = now) ∧
    (∀ (now : Nat) (ok : Bool) (n : Note) (s : MState),
      WellFormed s.folders n → hasNote n.id s.notes = true →
      lookupNote n.id (updateNote now ok n s).2.notes = some { n with modifiedAt := now } ∧
      ({ n with modifiedAt := now } : Note).createdAt = n.createdAt ∧
      (n.modifiedAt ≤ now → n.modifiedAt ≤ ({ n with modifiedAt := now } : Note).modifiedAt) ∧
      (n.createdAt ≤ n.modifiedAt → n.modifiedAt ≤ now →
        ({ n with modifiedAt := now } : Note).createdAt
          ≤ ({ n with modifiedAt := now } : Note).modifiedAt)) := by
  constructor
  · intro now newId ok opts s hne
    have hraw : ¬ ((createNoteRaw now newId opts s.folders).id.isEmpty = true) := by
      simpa [createNoteRaw, List.isEmpty_iff] using hne
    unfold createNote
    rw [validateNoteStrict_of_ne hraw]
    exact ⟨_, rfl, rfl, rfl⟩
  · intro now ok n s hwf hmem
    have hid : n.id ≠ [] := hwf.1
    have hv : validatedNoteOf s.folders now n.toRaw = n := validatedNoteOf_toRaw hwf
    have hvid : ({ n with modifiedAt := now } : Note).id = n.id := rfl
    refine ⟨?_, rfl, fun h => h, fun h1 h2 => le_trans h1 h2⟩
    rw [updateNote_unfold now ok n s hid hmem]
    simp only [hv]
    rcases hres : saveNotesSeq now ok { s with notes := setNote { n with modifiedAt := now } s.notes }
      with ⟨r, s2⟩
    have hn2 : s2.notes = setNote { n with modifiedAt := now } s.notes := by
      have := (saveNotesSeq_notes now ok { s with notes := setNote { n with modifiedAt := now } s.notes }).1
      rw [hres] at this
      simpa using this
    cases r <;> simp [hres, hn2, lookupNote_setNote_self s.notes hvid]

theorem c8_amended_witness :
    (∃ v : Note, (createNote 4 (str "new") true {} emptyState).1 = .ok v ∧
      v.createdAt = 4 ∧ v.modifiedAt = 4) ∧
    lookupNote (str "n1") (updateNote 9 true nA c3State).2.notes
      = some { nA with modifiedAt := 9 } :=
  ⟨c8_amended.1 4 (str "new") true {} emptyState (by decide),
   (c8_amended.2 9 true nA c3State (by decide) (by decide)).1⟩

/-! ## Claim C10 — deleteNote on an unknown id -/

/-- C10: for a non-empty id not present in the cache, deleteNote resolves to
false with the state (cache, store contents and issued-operation log)
untouched; the only throw that happens before any state is touched is the
falsy-id guard.  (The "not a string" half of the guard is vacuous in this
typed embedding, where ids are strings by construction.) -/
theorem c10_deleteNote (s : MState) (id : Str) (now : Nat) (okDel okSave : Bool)
    (hne : id ≠ []) (habs : hasNote id s.notes = false) :
    deleteNoteSeq now okDel okSave id s = (.ok false, s) ∧
    (∀ t : MState, deleteNoteSeq now okDel okSave [] t
        = (.error "Invalid note ID for deletion", t)) := by
  constructor
  · unfold deleteNoteSeq
    simp [List.isEmpty_iff, hne, habs]
  · intro t
    unfold deleteNoteSeq
    simp

theorem c10_witness :
    deleteNoteSeq 3 true true (str "nope") c3State = (.ok false, c3State) :=
  (c10_deleteNote c3State (str "nope") 3 true true (by decide) (by decide)).1

/-! ## Claim C7 — folder validation and folder creation -/

/-- C7, counterexample: createFolder performs no validation — a folder
whose name is whitespace-only is stored in the in-memory folder collection
(and the immediately fired save then silently drops it from the persisted
collection). -/
theorem c7_counterexample :
    ((createFolder 1 (str "f1") true (str "   ") none emptyState).2.folders.map
        (fun f => (f.id, f.name))) = [(str "f1", str "   ")] ∧
    (createFolder 1 (str "f1") true (str "   ") none emptyState).2.storedFolders = [] :=
  ⟨rfl, rfl⟩

/-- C7 (amended): for folders, a missing id or a missing/empty/whitespace-
only name are exactly the hard validation failures (every other field
degrades gracefully); but the folder-create operation itself performs no
validation: the new folder is stored in memory with its name verbatim, and
a whitespace-only-named folder is only dropped later, silently, by the
lenient re-validation inside every save. -/
theorem c7_amended :
    (∀ (now : Nat) (f : RawFolder),
      validateFolder now f = none ↔ (f.id = [] ∨ jsTrim (f.name.getD []) = [])) ∧
    (∀ (now : Nat) (newId : Str) (ok : Bool) (name : Str) (parentId : Option Str) (s : MState),
      (createFolder now newId ok name parentId s).1.name = name ∧
      (createFolder now newId ok name parentId s).1
        ∈ (createFolder now newId ok name parentId s).2.folders) ∧
    (∀ (now : Nat) (ok : Bool) (s : MState) (f : Folder),
      f ∈ s.folders → jsTrim f.name = [] →
      f.id ∉ (s.storedFolders.map (fun g => g.id)) →
      (s.folders.map (fun g => g.id)).Nodup →
      f.id ∉ ((saveNotesSeq now ok s).2.storedFolders.map (fun g => g.id))) := by
  refine ⟨?_, ?_, ?_⟩
  · intro now f
    unfold validateFolder
    by_cases h1 : f.id = []
    · simp [h1, List.isEmpty_iff]
    · have h1b : ¬ (f.id.isEmpty = true) := by simpa [List.isEmpty_iff] using h1
      by_cases h2 : jsTrim (f.name.getD []) = []
      · simp [h1b, h2, List.isEmpty_iff, h1]
      · have h2b : ¬ ((jsTrim (f.name.getD [])).isEmpty = true) := by
          simpa [List.isEmpty_iff] using h2
        simp [h1b, h2b, h1, h2]
  · intro now newId ok name parentId s
    refine ⟨rfl, ?_⟩
    unfold createFolder
    simp only [saveNotesSeq_notes]
    exact mem_setFolder_self _ s.folders
  · intro now ok s f hmem hblank hnotin hnd hin
    unfold saveNotesSeq at hin
    by_cases hp : s.saveInProgress = true
    · simp only [hp, if_true] at hin
      exact hnotin hin
    · have hp2 : s.saveInProgress = false := by simpa using hp
      cases ok with
      | false =>
        simp only [hp2, Bool.false_eq_true, if_false] at hin
        exact hnotin hin
      | true =>
        simp only [hp2, Bool.false_eq_true, if_false, if_true] at hin
        rcases ids_foldl_setFolder_subset _ s.storedFolders hin with h2 | h2
        · rcases List.mem_map.mp h2 with ⟨g, hg, hgid⟩
          rcases List.mem_filterMap.mp hg with ⟨g0, hg0, hval⟩
          have hgid2 : g.id = g0.id := validateFolder_id hval
          have hg0f : g0 = f :=
            eq_folder_of_mem_of_same_id hnd hg0 hmem (hgid2 ▸ hgid)
          subst hg0f
          have : validateFolder now g0.toRaw = none := by
            unfold validateFolder
            have : (jsTrim (g0.toRaw.name.getD [])).isEmpty = true := by
              simp [Folder.toRaw, hblank]
            simp [this]
          rw [this] at hval
          cases hval
        · exact hnotin h2

theorem c7_amended_witness :
    validateFolder 0 { id := str "g", name := some (str "   ") } = none :=
  (c7_amended.1 0 { id := str "g", name := some (str "   ") }).mpr (Or.inr (by decide))

/-! ## Claim C6 — folder deletion cascades as detach -/

theorem hasNote_iff {i : Str} {l : List Note} :
    hasNote i l = true ↔ i ∈ l.map (fun n => n.id) := by
  simp only [hasNote, List.any_eq_true, List.mem_map, beq_iff_eq]

/-- What one loop iteration of deleteFolder leaves in the cache. -/
def detachedOf (folders : List Folder) (now : Nat) (n : Note) : Note :=
  { validatedNoteOf folders now ({ n with folderId := none } : Note).toRaw with
    modifiedAt := now }

theorem detachedOf_folderId (folders : List Folder) (now : Nat) (n : Note) :
    (detachedOf folders now n).folderId = none := rfl

theorem updateNote_state (now : Nat) (ok : Bool) (m : Note) (st : MState)
    (hid : m.id ≠ []) (hmem : hasNote m.id st.notes = true) :
    (updateNote now ok m st).2.notes
        = setNote { validatedNoteOf st.folders now m.toRaw with modifiedAt := now } st.notes ∧
    (updateNote now ok m st).2.folders = st.folders := by
  cases hres : saveNotesSeq now ok
      { st with notes := setNote { validatedNoteOf st.folders now m.toRaw with modifiedAt := now } st.notes } with
  | mk r s2 =>
    have h := saveNotesSeq_notes now ok
      { st with notes := setNote { validatedNoteOf st.folders now m.toRaw with modifiedAt := now } st.notes }
    rw [hres] at h
    rw [updateNote_unfold now ok m st hid hmem]
    simp only [hres]
    cases r <;> simpa using h

theorem detach_foldl (now : Nat) (ok : Bool) (F : List Folder) :
    ∀ (ms : List Note) (st : MState),
      st.folders = F →
      (∀ m ∈ ms, m.id ≠ []) →
      (∀ m ∈ ms, hasNote m.id st.notes = true) →
      (ms.map (fun m => m.id)).Nodup →
      (ms.foldl (fun acc n => (updateNote now ok { n with folderId := none } acc).2) st).folders = F ∧
      ((ms.foldl (fun acc n => (updateNote now ok { n with folderId := none } acc).2) st).notes.map
          (fun n => n.id)) = st.notes.map (fun n => n.id) ∧
      (∀ i : Str, (∀ m ∈ ms, m.id ≠ i) →
        lookupNote i (ms.foldl (fun acc n => (updateNote now ok { n with folderId := none } acc).2) st).notes
          = lookupNote i st.notes) ∧
      ∀ m ∈ ms,
        lookupNote m.id
            (ms.foldl (fun acc n => (updateNote now ok { n with folderId := none } acc).2) st).notes
          = some (detachedOf F now m) := by
  intro ms
  induction ms with
  | nil =>
    intro st hF _ _ _
    exact ⟨hF, rfl, fun i _ => rfl, by simp⟩
  | cons m rest ih =>
    intro st hF hne hmem hnd
    have hidm : ({ m with folderId := none } : Note).id ≠ [] :=
      hne m (List.mem_cons_self m rest)
    have hmemm : hasNote ({ m with folderId := none } : Note).id st.notes = true :=
      hmem m (List.mem_cons_self m rest)
    obtain ⟨hnotes1, hfold1⟩ :=
      updateNote_state now ok { m with folderId := none } st hidm hmemm
    rw [hF] at hnotes1
    have hnotes1' : (updateNote now ok { m with folderId := none } st).2.notes
        = setNote (detachedOf F now m) st.notes := hnotes1
    have hmid : (detachedOf F now m).id = m.id := rfl
    have hmidmem : (detachedOf F now m).id ∈ st.notes.map (fun n => n.id) := by
      rw [hmid]
      exact hasNote_iff.mp hmemm
    have hids1 : ((updateNote now ok { m with folderId := none } st).2.notes.map (fun n => n.id))
        = st.notes.map (fun n => n.id) := by
      rw [hnotes1']
      exact ids_setNote_of_mem st.notes hmidmem
    have hndtail := nodup_ids_tail hnd
    obtain ⟨ihF, ihIds, ihLook, ihDet⟩ :=
      ih (updateNote now ok { m with folderId := none } st).2
        (hfold1.trans hF)
        (fun m' hm' => hne m' (List.mem_cons_of_mem m hm'))
        (fun m' hm' => by
          rw [hasNote_iff, hids1]
          exact hasNote_iff.mp (hmem m' (List.mem_cons_of_mem m hm')))
        hndtail.2
    rw [List.foldl_cons]
    refine ⟨ihF, ihIds.trans hids1, ?_, ?_⟩
    · intro i hi
      rw [ihLook i (fun m' hm' => hi m' (List.mem_cons_of_mem m hm')), hnotes1',
        lookupNote_setNote_other st.notes]
      rw [hmid]
      exact hi m (List.mem_cons_self m rest)
    · intro m' hm'
      rcases List.mem_cons.mp hm' with hm2 | hm2
      · subst hm2
        have hresti : ∀ w ∈ rest, w.id ≠ m'.id := by
          intro w hw hc
          exact hndtail.1 (hc ▸ List.mem_map.mpr ⟨w, hw, rfl⟩)
        rw [ihLook m'.id hresti, hnotes1']
        exact lookupNote_setNote_self st.notes hmid
      · exact ihDet m' hm2

/-- deleteFolder reduced at a present folder id. -/
theorem deleteFolder_char (s : MState) (fid : Str) (now : Nat) (ok : Bool)
    (hf : hasFolder fid s.folders = true) :
    deleteFolder now ok fid s =
      (true,
       (saveNotesSeq now ok
         { ((s.notes.filter (fun n => n.folderId == some fid)).foldl
              (fun acc n => (updateNote now ok { n with folderId := none } acc).2) s) with
           folders := delFolder fid
             (((s.notes.filter (fun n => n.folderId == some fid)).foldl
               (fun acc n => (updateNote now ok { n with folderId := none } acc).2) s).folders) }).2) := by
  unfold deleteFolder
  rw [if_pos hf]

/-- C6: deleting a folder F detaches (does not delete) every member note —
each note whose folder reference equals F's id is replaced by a re-validated
copy whose folder reference is null — removes F from the folder collection,
leaves non-member notes untouched, and afterwards every cached note's
folder reference is null or the id of a still-existing folder. -/
theorem c6_deleteFolder (s : MState) (fid : Str) (now : Nat) (ok : Bool)
    (hf : hasFolder fid s.folders = true)
    (hnd : (s.notes.map (fun n => n.id)).Nodup)
    (hne : ∀ n ∈ s.notes, n.id ≠ [])
    (hinv : ∀ n ∈ s.notes, n.folderId = none ∨ ∃ g ∈ s.folders, n.folderId = some g.id) :
    (deleteFolder now ok fid s).1 = true ∧
    (deleteFolder now ok fid s).2.folders = delFolder fid s.folders ∧
    fid ∉ ((deleteFolder now ok fid s).2.folders.map (fun g => g.id)) ∧
    (∀ n ∈ s.notes, n.folderId = some fid →
      lookupNote n.id (deleteFolder now ok fid s).2.notes
        = some (detachedOf s.folders now n)) ∧
    (∀ n ∈ s.notes, n.folderId ≠ some fid →
      lookupNote n.id (deleteFolder now ok fid s).2.notes = some n) ∧
    (∀ n' ∈ (deleteFolder now ok fid s).2.notes, n'.folderId ≠ some fid) ∧
    (∀ n' ∈ (deleteFolder now ok fid s).2.notes,
      n'.folderId = none ∨
        ∃ g ∈ (deleteFolder now ok fid s).2.folders, n'.folderId = some g.id) := by
  have hchar := deleteFolder_char s fid now ok hf
  set ms := s.notes.filter (fun n => n.folderId == some fid) with hms
  set fld := ms.foldl (fun acc n => (updateNote now ok { n with folderId := none } acc).2) s
    with hfld
  have hmemsub : ∀ m ∈ ms, m ∈ s.notes := fun m hm => (List.mem_filter.mp hm).1
  have hmemfid : ∀ m ∈ ms, m.folderId = some fid :=
    fun m hm => by simpa using (List.mem_filter.mp hm).2
  have hmemnd : (ms.map (fun n => n.id)).Nodup := by
    have hsub : List.Sublist (ms.map (fun n => n.id)) (s.notes.map (fun n => n.id)) := by
      rw [hms]
      exact (List.filter_sublist s.notes).map _
    exact hnd.sublist hsub
  obtain ⟨hFoldF, hFoldIds, hFoldLook, hFoldDet⟩ :=
    detach_foldl now ok s.folders ms s rfl
      (fun m hm => hne m (hmemsub m hm))
      (fun m hm => hasNote_iff.mpr (List.mem_map.mpr ⟨m, hmemsub m hm, rfl⟩))
      hmemnd
  rw [← hfld] at hFoldF hFoldIds hFoldLook hFoldDet
  have hnotesF : (deleteFolder now ok fid s).2.notes = fld.notes := by
    rw [hchar]
    exact (saveNotesSeq_notes now ok { fld with folders := delFolder fid fld.folders }).1
  have hfoldersF : (deleteFolder now ok fid s).2.folders = delFolder fid s.folders := by
    rw [hchar, (saveNotesSeq_notes now ok { fld with folders := delFolder fid fld.folders }).2]
    show delFolder fid fld.folders = delFolder fid s.folders
    rw [hFoldF]
  have hfldnd : (fld.notes.map (fun n => n.id)).Nodup := by
    rw [hFoldIds]
    exact hnd
  have hkey : ∀ n' ∈ fld.notes,
      (∃ m ∈ ms, n' = detachedOf s.folders now m) ∨
      (n' ∈ s.notes ∧ n'.folderId ≠ some fid) := by
    intro n' hn'
    have hlookn : lookupNote n'.id fld.notes = some n' :=
      lookupNote_eq_some_of_mem hfldnd hn'
    by_cases hex : ∃ m ∈ ms, m.id = n'.id
    · obtain ⟨m, hm, hmid⟩ := hex
      have := hFoldDet m hm
      rw [hmid, hlookn] at this
      exact Or.inl ⟨m, hm, Option.some.inj this⟩
    · have hall : ∀ m ∈ ms, m.id ≠ n'.id := by
        intro m hm hc
        exact hex ⟨m, hm, hc⟩
      have hlooks := hFoldLook n'.id hall
      rw [hlookn] at hlooks
      have hns : n' ∈ s.notes := mem_of_lookupNote_eq_some hlooks.symm
      refine Or.inr ⟨hns, ?_⟩
      intro hc
      exact hex ⟨n', List.mem_filter.mpr ⟨hns, by simp [hc]⟩, rfl⟩
  refine ⟨by rw [hchar], hfoldersF, ?_, ?_, ?_, ?_, ?_⟩
  · rw [hfoldersF]
    exact ids_delFolder s.folders
  · intro n hn hfidn
    rw [hnotesF]
    exact hFoldDet n (List.mem_filter.mpr ⟨hn, by simp [hfidn]⟩)
  · intro n hn hnot
    rw [hnotesF, hFoldLook n.id ?_]
    · exact lookupNote_eq_some_of_mem hnd hn
    · intro m hm hc
      have hmn : m = n := eq_of_mem_of_same_id hnd (hmemsub m hm) hn hc
      exact hnot (hmn ▸ hmemfid m hm)
  · intro n' hn'
    rw [hnotesF] at hn'
    rcases hkey n' hn' with ⟨m, _, hdet⟩ | ⟨_, hnot⟩
    · rw [hdet, detachedOf_folderId]
      simp
    · exact hnot
  · intro n' hn'
    rw [hnotesF] at hn'
    rcases hkey n' hn' with ⟨m, _, hdet⟩ | ⟨hns, hnot⟩
    · exact Or.inl (hdet ▸ detachedOf_folderId s.folders now m)
    · rcases hinv n' hns with hnone | ⟨g, hg, heq⟩
      · exact Or.inl hnone
      · have hgne : g.id ≠ fid := by
          intro hc
          exact hnot (hc ▸ heq)
        exact Or.inr ⟨g, hfoldersF ▸ mem_delFolder_of_mem hg hgne, heq⟩

def fA : Folder :=
  { id := str "f", name := str "F", parentId := none, color := str "#ffffff",
    createdAt := 0, modifiedAt := 0 }

def c6State : MState :=
  { notes := [{ nA with id := str "a", folderId := some (str "f") },
              { nA with id := str "b", folderId := some (str "f") }],
    folders := [fA], storedNotes := [], storedFolders := [] }

theorem c6_witness :
    (deleteFolder 9 true (str "f") c6State).1 = true ∧
    (str "f") ∉ ((deleteFolder 9 true (str "f") c6State).2.folders.map (fun g => g.id)) ∧
    lookupNote (str "a") (deleteFolder 9 true (str "f") c6State).2.notes
      = some (detachedOf c6State.folders 9 { nA with id := str "a", folderId := some (str "f") }) :=
  ⟨(c6_deleteFolder c6State (str "f") 9 true (by decide) (by decide) (by decide) (by decide)).1,
   (c6_deleteFolder c6State (str "f") 9 true (by decide) (by decide) (by decide) (by decide)).2.2.1,
   (c6_deleteFolder c6State (str "f") 9 true (by decide) (by decide) (by decide)
      (by decide)).2.2.2.1 { nA with id := str "a", folderId := some (str "f") }
      (by decide) (by decide)⟩

/-! ## Claim C5 — query evaluation: filter pipeline, sort totality, tie-breaking

A stable sort by a total preorder is characterized by sortedness plus the
preservation of the relative order of elements sharing a sort key; the
two lemmas below give exactly that for `List.insertionSort`, which models
JS `Array.prototype.sort` (stable per the language spec) with a consistent
comparator. -/

theorem filter_orderedInsert {α : Type} (r : α → α → Prop) [DecidableRel r] (p : α → Bool)
    (hcomp : ∀ x y, p x = true → p y = true → r x y) (a : α) (l : List α) :
    (List.orderedInsert r a l).filter p
      = if p a then a :: l.filter p else l.filter p := by
  induction l with
  | nil => by_cases hpa : p a = true <;> simp [List.orderedInsert, hpa]
  | cons b t ih =>
    by_cases hr : r a b
    · by_cases hpa : p a = true <;>
        simp [List.orderedInsert, hr, List.filter_cons, hpa]
    · by_cases hpa : p a = true
      · have hpb : p b = false := by
          by_contra hb
          exact hr (hcomp a b hpa (by simpa using hb))
        simp [List.orderedInsert, hr, List.filter_cons, hpa, hpb, ih]
      · have hpa2 : p a = false := by simpa using hpa
        simp [List.orderedInsert, hr, List.filter_cons, hpa2, ih]

theorem filter_insertionSort {α : Type} (r : α → α → Prop) [DecidableRel r] (p : α → Bool)
    (hcomp : ∀ x y, p x = true → p y = true → r x y) (l : List α) :
    (List.insertionSort r l).filter p = l.filter p := by
  induction l with
  | nil => rfl
  | cons a t ih =>
    rw [List.insertionSort, filter_orderedInsert r p hcomp, ih, List.filter_cons]

/-- The four filter predicates of getFilteredNotes, in source order. -/
def quickPred (now : Nat) (qf : Str) (n : Note) : Bool :=
  if qf == str "recent" then decide (now - weekMs ≤ n.modifiedAt)
  else if qf == str "favorites" then n.isFavorite
  else if qf == str "shared" then n.isShared
  else true

def folderPred (cfg : FilterCfg) (n : Note) : Bool :=
  if jsTruthy cfg.folderFilter then n.folderId == cfg.folderFilter else true

def tagPred (cfg : FilterCfg) (n : Note) : Bool :=
  if jsTruthy cfg.tagFilter then n.tags.contains (cfg.tagFilter.getD []) else true

def searchPred (strip : Str → Str) (cfg : FilterCfg) (n : Note) : Bool :=
  if !(jsTrim cfg.searchQuery).isEmpty then
    jsIncludes (jsLower n.title) (jsTrim (jsLower cfg.searchQuery)) ||
    jsIncludes (jsLower (strip n.content)) (jsTrim (jsLower cfg.searchQuery)) ||
    jsIncludes (jsLower (joinSpace n.tags)) (jsTrim (jsLower cfg.searchQuery))
  else true

/-- The conjunction of the four filters (associated the way the four
sequential `filter` passes fuse). -/
def passesAll (strip : Str → Str) (now : Nat) (cfg : FilterCfg) (n : Note) : Bool :=
  searchPred strip cfg n &&
    (tagPred cfg n && (folderPred cfg n && quickPred now cfg.quickFilter n))

theorem getFilteredNotes_eq (strip : Str → Str) (now : Nat) (cfg : FilterCfg)
    (folders : List Folder) (notes : List Note) :
    getFilteredNotes strip now cfg folders notes
      = List.insertionSort (fun a b => sortLe folders cfg.sortBy a b = true)
          (notes.filter (passesAll strip now cfg)) := by
  unfold getFilteredNotes passesAll searchPred tagPred folderPred quickPred
  by_cases h1 : (cfg.quickFilter == str "recent") = true <;>
  by_cases h2 : (cfg.quickFilter == str "favorites") = true <;>
  by_cases h3 : (cfg.quickFilter == str "shared") = true <;>
  by_cases h4 : jsTruthy cfg.folderFilter = true <;>
  by_cases h5 : jsTruthy cfg.tagFilter = true <;>
  by_cases h6 : (!(jsTrim cfg.searchQuery).isEmpty) = true <;>
    simp [h1, h2, h3, h4, h5, h6, List.filter_filter]

theorem sortLe_total (folders : List Folder) (sortBy : Str) (a b : Note) :
    sortLe folders sortBy a b = true ∨ sortLe folders sortBy b a = true := by
  unfold sortLe
  by_cases h1 : (sortBy == str "created") = true
  · simpa [h1] using Nat.le_total b.createdAt a.createdAt
  · by_cases h2 : (sortBy == str "title") = true
    · simpa [h1, h2] using strLeB_total a.title b.title
    · by_cases h3 : (sortBy == str "folder") = true
      · simpa [h1, h2, h3] using
          strLeB_total ((getFolderName folders a.folderId).getD [])
            ((getFolderName folders b.folderId).getD [])
      · simpa [h1, h2, h3] using Nat.le_total b.modifiedAt a.modifiedAt

theorem sortLe_trans (folders : List Folder) (sortBy : Str) (a b c : Note)
    (hab : sortLe folders sortBy a b = true) (hbc : sortLe folders sortBy b c = true) :
    sortLe folders sortBy a c = true := by
  unfold sortLe at *
  by_cases h1 : (sortBy == str "created") = true
  · simp only [h1, if_true, decide_eq_true_eq] at *
    exact le_trans hbc hab
  · by_cases h2 : (sortBy == str "title") = true
    · simp only [h1, h2, Bool.false_eq_true, if_false, if_true] at *
      exact strLeB_trans hab hbc
    · by_cases h3 : (sortBy == str "folder") = true
      · simp only [h1, h2, h3, Bool.false_eq_true, if_false, if_true] at *
        exact strLeB_trans hab hbc
      · simp only [h1, h2, h3, Bool.false_eq_true, if_false, decide_eq_true_eq] at *
        exact le_trans hbc hab

/-- C5: getFilteredNotes applies the quick filter, the folder filter, the
tag filter and the live substring search (in that fixed order, fused here
into their conjunction), then sorts by the requested key as a total
preorder; the sort is stable, so notes sharing a sort key — in particular
two notes with identical titles under the title sort — keep their relative
insertion order. -/
theorem c5_getFilteredNotes (strip : Str → Str) (now : Nat) (cfg : FilterCfg)
    (folders : List Folder) (notes : List Note) :
    (∀ x : Note, x ∈ getFilteredNotes strip now cfg folders notes ↔
      (x ∈ notes ∧ quickPred now cfg.quickFilter x = true ∧ folderPred cfg x = true ∧
        tagPred cfg x = true ∧ searchPred strip cfg x = true)) ∧
    List.Sorted (fun a b => sortLe folders cfg.sortBy a b = true)
      (getFilteredNotes strip now cfg folders notes) ∧
    (cfg.sortBy = str "title" → ∀ t : Str,
      (getFilteredNotes strip now cfg folders notes).filter (fun n => n.title == t)
        = (notes.filter (passesAll strip now cfg)).filter (fun n => n.title == t)) ∧
    (cfg.sortBy = str "created" → ∀ v : Nat,
      (getFilteredNotes strip now cfg folders notes).filter (fun n => n.createdAt == v)
        = (notes.filter (passesAll strip now cfg)).filter (fun n => n.createdAt == v)) ∧
    (cfg.sortBy = str "folder" → ∀ t : Str,
      (getFilteredNotes strip now cfg folders notes).filter
          (fun n => (getFolderName folders n.folderId).getD [] == t)
        = (notes.filter (passesAll strip now cfg)).filter
          (fun n => (getFolderName folders n.folderId).getD [] == t)) ∧
    (cfg.sortBy ≠ str "created" → cfg.sortBy ≠ str "title" → cfg.sortBy ≠ str "folder" →
      ∀ v : Nat,
      (getFilteredNotes strip now cfg folders notes).filter (fun n => n.modifiedAt == v)
        = (notes.filter (passesAll strip now cfg)).filter (fun n => n.modifiedAt == v)) := by
  have hEq := getFilteredNotes_eq strip now cfg folders notes
  refine ⟨?_, ?_, ?_, ?_, ?_, ?_⟩
  · intro x
    rw [hEq]
    simp only [List.mem_insertionSort, List.mem_filter, passesAll, Bool.and_eq_true]
    tauto
  · rw [hEq]
    exact @List.sorted_insertionSort Note (fun a b => sortLe folders cfg.sortBy a b = true) _
      ⟨sortLe_total folders cfg.sortBy⟩
      ⟨fun a b c => sortLe_trans folders cfg.sortBy a b c⟩
      (notes.filter (passesAll strip now cfg))
  · intro hsort t
    rw [hEq]
    apply filter_insertionSort
    intro x y hx hy
    have hxt : x.title = t := by simpa using hx
    have hyt : y.title = t := by simpa using hy
    have hc : (str "title" == str "created") = false := by decide
    have ht : (str "title" == str "title") = true := by decide
    simp [sortLe, hsort, hc, ht, hxt, hyt, strLeB_refl]
  · intro hsort v
    rw [hEq]
    apply filter_insertionSort
    intro x y hx hy
    have hxv : x.createdAt = v := by simpa using hx
    have hyv : y.createdAt = v := by simpa using hy
    have hc : (str "created" == str "created") = true := by decide
    simp [sortLe, hsort, hc, hxv, hyv]
  · intro hsort t
    rw [hEq]
    apply filter_insertionSort
    intro x y hx hy
    have hxt : (getFolderName folders x.folderId).getD [] = t := by simpa using hx
    have hyt : (getFolderName folders y.folderId).getD [] = t := by simpa using hy
    have hc : (str "folder" == str "created") = false := by decide
    have ht : (str "folder" == str "title") = false := by decide
    have hf : (str "folder" == str "folder") = true := by decide
    simp [sortLe, hsort, hc, ht, hf, hxt, hyt, strLeB_refl]
  · intro hs1 hs2 hs3 v
    rw [hEq]
    apply filter_insertionSort
    intro x y hx hy
    have hxv : x.modifiedAt = v := by simpa using hx
    have hyv : y.modifiedAt = v := by simpa using hy
    have hc : (cfg.sortBy == str "created") = false := by simpa using hs1
    have ht : (cfg.sortBy == str "title") = false := by simpa using hs2
    have hf : (cfg.sortBy == str "folder") = false := by simpa using hs3
    simp [sortLe, hc, ht, hf, hxv, hyv]

def c5Cfg : FilterCfg := { sortBy := str "title" }

def c5n1 : Note := { nA with id := str "x1", title := str "dup", modifiedAt := 10 }

def c5n2 : Note := { nA with id := str "x2", title := str "dup", modifiedAt := 3 }

theorem c5_witness :
    ((getFilteredNotes id 0 c5Cfg [] [c5n1, c5n2]).filter (fun n => n.title == str "dup")
      = ([c5n1, c5n2].filter (passesAll id 0 c5Cfg)).filter (fun n => n.title == str "dup")) ∧
    List.Sorted (fun a b => sortLe [] c5Cfg.sortBy a b = true)
      (getFilteredNotes id 0 c5Cfg [] [c5n1, c5n2]) :=
  ⟨(c5_getFilteredNotes id 0 c5Cfg [] [c5n1, c5n2]).2.2.1 rfl (str "dup"),
   (c5_getFilteredNotes id 0 c5Cfg [] [c5n1, c5n2]).2.1⟩

/-! ## Claim C9 — double-quoted phrase terms in the Search Engine -/

/-- C9: the query `"release notes"` (with quotes) parses into a single
phrase term; every note one of whose enabled searchable fields contains
the case-folded substring "release notes" matches, a note whose title
contains exactly that substring matches, and a note containing only
"notes for release" does not match. -/
theorem c9_quoted_phrase :
    (parseSearchQuery (str "\"release notes\"") = [str "\"release notes\""]) ∧
    (∀ (strip : Str → Str) (f : SearchFilters) (n : Note),
      ((f.includeTitle = true ∧ str "release notes" <:+: jsLower n.title) ∨
       (f.includeContent = true ∧ str "release notes" <:+: jsLower (strip n.content)) ∨
       (f.includeTags = true ∧ str "release notes" <:+: jsLower (joinSpace n.tags))) →
      performTextSearch strip [n] (str "\"release notes\"") f = [n]) ∧
    (performTextSearch id [{ nA with title := str "Release notes" }]
        (str "\"release notes\"") {} = [{ nA with title := str "Release notes" }]) ∧
    (performTextSearch id [{ nA with title := str "notes for release" }]
        (str "\"release notes\"") {} = []) := by
  have hparse : parseSearchQuery (str "\"release notes\"") = [str "\"release notes\""] := by
    decide
  refine ⟨hparse, ?_, by decide, by decide⟩
  intro strip f n hdisj
  have hterm : termMatches strip f n (str "\"release notes\"") = true := by
    unfold termMatches
    have hneg : ((str "-").isPrefixOf (str "\"release notes\"")) = false := by decide
    have hq1 : ((str "\"").isPrefixOf (str "\"release notes\"")) = true := by decide
    have hq2 : ((str "\"release notes\"").getLast? == some '"') = true := by decide
    have hph : jsLower (((str "\"release notes\"").drop 1).dropLast) = str "release notes" := by
      decide
    simp only [hneg, hq1, hq2, Bool.false_eq_true, if_false, Bool.and_self, if_true, hph]
    unfold noteContainsPhrase
    rw [jsIncludes_eq_true_iff]
    unfold noteSearchText
    rcases hdisj with ⟨hi, hinf⟩ | ⟨hi, hinf⟩ | ⟨hi, hinf⟩
    · rw [hi]
      simp only [if_true]
      exact ((hinf.trans (List.prefix_append _ _).isInfix).trans
        (List.prefix_append _ _).isInfix).trans (List.prefix_append _ _).isInfix
    · rw [hi]
      simp only [if_true]
      exact ((hinf.trans (List.prefix_append _ _).isInfix).trans
        (List.suffix_append _ _).isInfix).trans (List.prefix_append _ _).isInfix
    · rw [hi]
      simp only [if_true]
      exact hinf.trans (List.suffix_append _ _).isInfix
  unfold performTextSearch
  rw [hparse]
  simp [List.filter, List.all, hterm]

theorem c9_witness :
    performTextSearch id [{ nA with title := str "Launch Release Notes today" }]
      (str "\"release notes\"") {} = [{ nA with title := str "Launch Release Notes today" }] :=
  c9_quoted_phrase.2.1 id {} { nA with title := str "Launch Release Notes today" }
    (Or.inl ⟨rfl, by decide⟩)

/-! ## Claim C1 — delete/save interleaving: no resurrection

A small-step system for one `deleteNote(i)` task running interleaved with
any number of `saveNotes` requests against the shared IndexedDB connection.
Atomic steps are the synchronous JS blocks between `await` points:

- `dStart`: deleteNote's synchronous prefix — remove `i` from the in-memory
  map and create the store's delete transaction (both happen in one
  synchronous block before the first `await`);
- `dDelDone`: deleteNote observes the delete transaction's completion;
- `dResaveDrop` / `dResave`: the inner `saveNotes()` — dropped when a save
  is in flight, otherwise set the flag and enqueue a put transaction of the
  re-validated snapshot, taken synchronously;
- `dSaveDone`: that save resolves, clearing the flag;
- `sStart` / `sEnd`: an unrelated `saveNotes()` request (at any time, with
  any clock value), same flag discipline.  `sEnd` is deliberately
  unconstrained (an over-approximation: the real system clears the flag
  only after the put transaction completes, and a system with more
  behaviours can only make the safety claim stronger);
- `storeStep`: IndexedDB executes the oldest pending transaction —
  overlapping-scope readwrite transactions run in creation order, so the
  queue is FIFO.  A failed transaction writes nothing and is modelled by
  the corresponding task never completing, which only removes behaviours.
-/

inductive Txn where
  | put (ns : List Note) (fs : List Folder)
  | del (id : Str)
deriving DecidableEq, Repr

inductive DPc where
  | start
  | waitDel
  | resave
  | waitSave
  | done
deriving DecidableEq, Repr

structure CState where
  mem : List Note
  folders : List Folder
  store : List Note
  storeF : List Folder
  q : List Txn
  flag : Bool
  dpc : DPc
deriving DecidableEq, Repr

/-- One IndexedDB transaction against the notes object store: a put per
snapshot entry, or a single delete. -/
def applyTxnN : Txn → List Note → List Note
  | .put ns _, store => ns.foldl (fun st n => setNote n st) store
  | .del i, store => delNote i store

def applyTxnF : Txn → List Folder → List Folder
  | .put _ fs, store => fs.foldl (fun st f => setFolder f st) store
  | .del _, store => store

inductive Step (i : Str) : CState → CState → Prop where
  | dStart (s : CState) (h : hasNote i s.mem = true) (hpc : s.dpc = .start) :
      Step i s { s with mem := delNote i s.mem, q := s.q ++ [.del i], dpc := .waitDel }
  | dDelDone (s : CState) (hpc : s.dpc = .waitDel) (hq : Txn.del i ∉ s.q) :
      Step i s { s with dpc := .resave }
  | dResaveDrop (s : CState) (hpc : s.dpc = .resave) (hf : s.flag = true) :
      Step i s { s with dpc := .done }
  | dResave (s : CState) (now : Nat) (hpc : s.dpc = .resave) (hf : s.flag = false) :
      Step i s { s with
        flag := true,
        q := s.q ++ [.put (saveView s.folders now s.mem) (saveViewFolders now s.folders)],
        dpc := .waitSave }
  | dSaveDone (s : CState) (hpc : s.dpc = .waitSave) :
      Step i s { s with flag := false, dpc := .done }
  | sStart (s : CState) (now : Nat) (hf : s.flag = false) :
      Step i s { s with
        flag := true,
        q := s.q ++ [.put (saveView s.folders now s.mem) (saveViewFolders now s.folders)] }
  | sEnd (s : CState) (hf : s.flag = true) :
      Step i s { s with flag := false }
  | storeStep (s : CState) (t : Txn) (rest : List Txn) (hq : s.q = t :: rest) :
      Step i s { s with store := applyTxnN t s.store, storeF := applyTxnF t s.storeF, q := rest }

/-- No pending put transaction contains the id. -/
def putsFree (i : Str) : List Txn → Prop
  | [] => True
  | Txn.put ns _ :: rest => (i ∉ ns.map (fun n => n.id)) ∧ putsFree i rest
  | Txn.del _ :: rest => putsFree i rest

/-- Every put transaction queued after a pending `del i` is free of the
id (such puts snapshotted the memory after the in-memory removal). -/
def qOk (i : Str) : List Txn → Prop
  | [] => True
  | Txn.del j :: rest => (j = i → putsFree i rest) ∧ qOk i rest
  | Txn.put _ _ :: rest => qOk i rest

theorem putsFree_tail {i : Str} {t : Txn} {rest : List Txn}
    (h : putsFree i (t :: rest)) : putsFree i rest := by
  cases t with
  | put ns fs => exact h.2
  | del j => exact h

theorem qOk_tail {i : Str} {t : Txn} {rest : List Txn}
    (h : qOk i (t :: rest)) : qOk i rest := by
  cases t with
  | put ns fs => exact h
  | del j => exact h.2

theorem qOk_of_not_del {i : Str} : ∀ {q : List Txn}, Txn.del i ∉ q → qOk i q := by
  intro q
  induction q with
  | nil => intro _; trivial
  | cons t rest ih =>
    intro h
    have hrest : Txn.del i ∉ rest := fun hr => h (List.mem_cons_of_mem t hr)
    cases t with
    | put ns fs => exact ih hrest
    | del j =>
      refine ⟨?_, ih hrest⟩
      intro hji
      exact absurd (hji ▸ List.mem_cons_self _ rest) h

theorem putsFree_append_put {i : Str} {ns : List Note} {fs : List Folder} :
    ∀ {q : List Txn}, putsFree i q → i ∉ ns.map (fun n => n.id) →
      putsFree i (q ++ [Txn.put ns fs]) := by
  intro q
  induction q with
  | nil => intro _ hn; exact ⟨hn, trivial⟩
  | cons t rest ih =>
    intro h hn
    cases t with
    | put ms gs => exact ⟨h.1, ih h.2 hn⟩
    | del j => exact ih h hn

theorem qOk_append_put {i : Str} {ns : List Note} {fs : List Folder} :
    ∀ {q : List Txn}, qOk i q → i ∉ ns.map (fun n => n.id) →
      qOk i (q ++ [Txn.put ns fs]) := by
  intro q
  induction q with
  | nil => intro _ _; trivial
  | cons t rest ih =>
    intro h hn
    cases t with
    | put ms gs => exact ih h hn
    | del j =>
      refine ⟨?_, ih h.2 hn⟩
      intro hji
      exact putsFree_append_put (h.1 hji) hn

theorem qOk_append_del_self {i : Str} :
    ∀ {q : List Txn}, Txn.del i ∉ q → qOk i (q ++ [Txn.del i]) := by
  intro q
  induction q with
  | nil => intro _; exact ⟨fun _ => trivial, trivial⟩
  | cons t rest ih =>
    intro h
    have hrest : Txn.del i ∉ rest := fun hr => h (List.mem_cons_of_mem t hr)
    cases t with
    | put ms gs => exact ih hrest
    | del j =>
      refine ⟨?_, ih hrest⟩
      intro hji
      exact absurd (hji ▸ List.mem_cons_self _ rest) h

theorem delNote_not_mem {i : Str} (l : List Note) :
    i ∉ (delNote i l).map (fun n => n.id) := by
  intro h
  rcases List.mem_map.mp h with ⟨n, hn, hnid⟩
  have := List.mem_filter.mp hn
  simp [hnid] at this

theorem delNote_preserves_not_mem {i j : Str} {l : List Note}
    (h : i ∉ l.map (fun n => n.id)) : i ∉ (delNote j l).map (fun n => n.id) := by
  intro hc
  rcases List.mem_map.mp hc with ⟨n, hn, hnid⟩
  exact h (List.mem_map.mpr ⟨n, (List.mem_filter.mp hn).1, hnid⟩)

theorem saveView_not_mem {i : Str} {folders : List Folder} {now : Nat} {mem : List Note}
    (h : i ∉ mem.map (fun n => n.id)) :
    i ∉ (saveView folders now mem).map (fun n => n.id) := by
  intro hc
  rcases List.mem_map.mp hc with ⟨v, hv, hvid⟩
  rcases List.mem_filterMap.mp hv with ⟨m, hm, hval⟩
  have : v.id = m.id := validateNote_id hval
  exact h (List.mem_map.mpr ⟨m, hm, this ▸ hvid⟩)

theorem applyTxnN_not_mem {i : Str} {t : Txn} {store : List Note}
    (hs : i ∉ store.map (fun n => n.id))
    (ht : ∀ ns fs, t = Txn.put ns fs → i ∉ ns.map (fun n => n.id)) :
    i ∉ (applyTxnN t store).map (fun n => n.id) := by
  cases t with
  | put ns fs =>
    intro hc
    rcases ids_foldl_setNote_subset ns store hc with h2 | h2
    · exact ht ns fs rfl h2
    · exact hs h2
  | del j => exact delNote_preserves_not_mem hs

/-- The inductive invariant guaranteeing a deleted note cannot resurrect. -/
structure DelInv (i : Str) (s : CState) : Prop where
  hstart : s.dpc = .start → Txn.del i ∉ s.q
  hmem : s.dpc ≠ .start → i ∉ s.mem.map (fun n => n.id)
  hq : s.dpc ≠ .start → qOk i s.q
  hlate : (s.dpc = .resave ∨ s.dpc = .waitSave ∨ s.dpc = .done) → Txn.del i ∉ s.q
  hstore : s.dpc ≠ .start → Txn.del i ∉ s.q →
    i ∉ s.store.map (fun n => n.id) ∧ putsFree i s.q

theorem delInv_step {i : Str} {s s' : CState} (hstep : Step i s s') (hinv : DelInv i s) :
    DelInv i s' := by
  cases hstep with
  | dStart h hpc =>
    refine ⟨?_, ?_, ?_, ?_, ?_⟩
    · intro hc
      simp at hc
    · intro _
      exact delNote_not_mem s.mem
    · intro _
      exact qOk_append_del_self (hinv.hstart hpc)
    · intro hc
      simp at hc
    · intro _ hnot
      exact absurd (by simp) hnot
  | dDelDone hpc hq =>
    have hne : s.dpc ≠ .start := by rw [hpc]; simp
    refine ⟨?_, ?_, ?_, ?_, ?_⟩
    · intro hc
      simp at hc
    · intro _
      exact hinv.hmem hne
    · intro _
      exact hinv.hq hne
    · intro _
      exact hq
    · intro _ _
      exact hinv.hstore hne hq
  | dResaveDrop hpc hf =>
    have hne : s.dpc ≠ .start := by rw [hpc]; simp
    refine ⟨?_, ?_, ?_, ?_, ?_⟩
    · intro hc
      simp at hc
    · intro _
      exact hinv.hmem hne
    · intro _
      exact hinv.hq hne
    · intro _
      exact hinv.hlate (Or.inl hpc)
    · intro _ hnot
      exact hinv.hstore hne hnot
  | dResave now hpc hf =>
    have hne : s.dpc ≠ .start := by rw [hpc]; simp
    have hsv : i ∉ (saveView s.folders now s.mem).map (fun n => n.id) :=
      saveView_not_mem (hinv.hmem hne)
    have hnotq : Txn.del i ∉ s.q := hinv.hlate (Or.inl hpc)
    refine ⟨?_, ?_, ?_, ?_, ?_⟩
    · intro hc
      simp at hc
    · intro _
      exact hinv.hmem hne
    · intro _
      exact qOk_append_put (hinv.hq hne) hsv
    · intro _ hc
      rcases List.mem_append.mp hc with h2 | h2
      · exact hnotq h2
      · simp at h2
    · intro _ _
      exact ⟨(hinv.hstore hne hnotq).1, putsFree_append_put (hinv.hstore hne hnotq).2 hsv⟩
  | dSaveDone hpc =>
    have hne : s.dpc ≠ .start := by rw [hpc]; simp
    refine ⟨?_, ?_, ?_, ?_, ?_⟩
    · intro hc
      simp at hc
    · intro _
      exact hinv.hmem hne
    · intro _
      exact hinv.hq hne
    · intro _
      exact hinv.hlate (Or.inr (Or.inl hpc))
    · intro _ hnot
      exact hinv.hstore hne hnot
  | sStart now hf =>
    refine ⟨?_, ?_, ?_, ?_, ?_⟩
    · intro hc hmem2
      rcases List.mem_append.mp hmem2 with h2 | h2
      · exact hinv.hstart hc h2
      · simp at h2
    · intro hne2
      exact hinv.hmem hne2
    · intro hne2
      exact qOk_append_put (hinv.hq hne2) (saveView_not_mem (hinv.hmem hne2))
    · intro hlate2 hc
      rcases List.mem_append.mp hc with h2 | h2
      · exact hinv.hlate hlate2 h2
      · simp at h2
    · intro hne2 hnot
      have hnq : Txn.del i ∉ s.q := fun h2 => hnot (List.mem_append_left _ h2)
      exact ⟨(hinv.hstore hne2 hnq).1,
        putsFree_append_put (hinv.hstore hne2 hnq).2 (saveView_not_mem (hinv.hmem hne2))⟩
  | sEnd hf =>
    exact ⟨hinv.hstart, hinv.hmem, hinv.hq, hinv.hlate, hinv.hstore⟩
  | storeStep t rest hq =>
    refine ⟨?_, ?_, ?_, ?_, ?_⟩
    · intro hc
      have hbase := hinv.hstart hc
      rw [hq] at hbase
      exact fun h2 => hbase (List.mem_cons_of_mem t h2)
    · intro hne2
      exact hinv.hmem hne2
    · intro hne2
      have hbase := hinv.hq hne2
      rw [hq] at hbase
      exact qOk_tail hbase
    · intro hlate2
      have hbase := hinv.hlate hlate2
      rw [hq] at hbase
      exact fun h2 => hbase (List.mem_cons_of_mem t h2)
    · intro hne2 hnot
      by_cases hdel : Txn.del i ∈ s.q
      · rw [hq] at hdel
        rcases List.mem_cons.mp hdel with h2 | h2
        · have hqok := hinv.hq hne2
          rw [hq, ← h2] at hqok
          refine ⟨?_, hqok.1 rfl⟩
          rw [← h2]
          exact delNote_not_mem s.store
        · exact absurd h2 hnot
      · have hbase := hinv.hstore hne2 hdel
        rw [hq] at hbase
        refine ⟨?_, putsFree_tail hbase.2⟩
        apply applyTxnN_not_mem hbase.1
        intro ns fs htput
        subst htput
        exact hbase.2.1

/-- The cache-population loop of NoteManager.loadNotes, applied to the
notes read back from the store: each is validated leniently and `set` into
the map, invalid entries skipped. -/
def loadFromStore (now : Nat) (folders : List Folder) (store : List Note)
    (mem : List Note) : List Note :=
  store.foldl
    (fun m0 n =>
      match validateNote folders now n.toRaw with
      | some v => setNote v m0
      | none => m0) mem

theorem loadFromStore_not_mem {i : Str} (now : Nat) (folders : List Folder) :
    ∀ (store mem : List Note), i ∉ store.map (fun n => n.id) →
      i ∉ mem.map (fun n => n.id) →
      i ∉ (loadFromStore now folders store mem).map (fun n => n.id) := by
  intro store
  induction store with
  | nil =>
    intro mem _ hm
    exact hm
  | cons n rest ih =>
    intro mem hs hm
    have hni : i ≠ n.id := by
      intro hc
      exact hs (by simp [hc])
    have hsrest : i ∉ rest.map (fun m => m.id) := by
      intro hc
      exact hs (by simp [hc])
    have hfc : loadFromStore now folders (n :: rest) mem
        = loadFromStore now folders rest
            (match validateNote folders now n.toRaw with
             | some v => setNote v mem
             | none => mem) := by
      unfold loadFromStore
      rw [List.foldl_cons]
    rcases hval : validateNote folders now n.toRaw with _ | v
    · rw [hfc, hval]
      exact ih mem hsrest hm
    · rw [hfc, hval]
      refine ih _ hsrest ?_
      intro hc
      rcases ids_setNote_subset mem hc with h2 | h2
      · exact hni (h2.trans (validateNote_id hval))
      · exact hm h2

/-- C1: deleteNote removes the note from the in-memory cache first (from
the first step of the delete onward, the cache no longer contains it), then
durably deletes it from the store, and only after observing that completion
re-saves the remaining collection.  In every interleaving with any number
of saveNotes requests — including one already in flight when the delete
started, whose snapshot still contains the note — once the delete has
completed the id is absent from the cache and from the store, and a
subsequent load (repopulating the cache from the store) cannot make it
reappear. -/
theorem c1_no_resurrection (i : Str) (s0 sf : CState)
    (h0q : s0.q = []) (h0pc : s0.dpc = DPc.start)
    (hsteps : Relation.ReflTransGen (Step i) s0 sf) :
    (sf.dpc ≠ DPc.start → i ∉ sf.mem.map (fun n => n.id)) ∧
    (sf.dpc = DPc.done →
      i ∉ sf.mem.map (fun n => n.id) ∧
      i ∉ sf.store.map (fun n => n.id) ∧
      ∀ now : Nat,
        i ∉ (loadFromStore now sf.folders sf.store sf.mem).map (fun n => n.id)) := by
  have hinv0 : DelInv i s0 := by
    refine ⟨?_, ?_, ?_, ?_, ?_⟩
    · intro _
      rw [h0q]
      simp
    · intro hne
      exact absurd h0pc hne
    · intro hne
      exact absurd h0pc hne
    · intro hlate
      rcases hlate with h | h | h <;> simp [h0pc] at h
    · intro hne _
      exact absurd h0pc hne
  have hinvf : DelInv i sf := by
    induction hsteps with
    | refl => exact hinv0
    | tail _ hstep ih => exact delInv_step hstep ih
  refine ⟨hinvf.hmem, ?_⟩
  intro hdone
  have hne : sf.dpc ≠ DPc.start := by rw [hdone]; simp
  have hnq : Txn.del i ∉ sf.q := hinvf.hlate (Or.inr (Or.inr hdone))
  have hm := hinvf.hmem hne
  have hs := (hinvf.hstore hne hnq).1
  exact ⟨hm, hs, fun now => loadFromStore_not_mem now sf.folders sf.store sf.mem hs hm⟩

def c1n : Note := { nA with id := str "a" }

def c1s0 : CState :=
  { mem := [c1n], folders := [], store := [c1n], storeF := [], q := [],
    flag := false, dpc := .start }

def c1sf : CState :=
  { mem := [], folders := [], store := [], storeF := [], q := [],
    flag := false, dpc := .done }

theorem c1_witness :
    (str "a") ∉ c1sf.mem.map (fun n => n.id) ∧
    (str "a") ∉ c1sf.store.map (fun n => n.id) ∧
    (str "a") ∉ (loadFromStore 5 c1sf.folders c1sf.store c1sf.mem).map (fun n => n.id) := by
  have htrace : Relation.ReflTransGen (Step (str "a")) c1s0 c1sf := by
    refine Relation.ReflTransGen.head (Step.dStart c1s0 (by decide) rfl) ?_
    refine Relation.ReflTransGen.head (Step.storeStep _ _ _ rfl) ?_
    refine Relation.ReflTransGen.head (Step.dDelDone _ (by decide) (by decide)) ?_
    refine Relation.ReflTransGen.head (Step.dResave _ 0 (by decide) (by decide)) ?_
    refine Relation.ReflTransGen.head (Step.storeStep _ _ _ rfl) ?_
    refine Relation.ReflTransGen.head (Step.dSaveDone _ (by decide)) ?_
    exact Relation.ReflTransGen.refl
  have hres := (c1_no_resurrection (str "a") c1s0 c1sf rfl rfl htrace).2 rfl
  exact ⟨hres.1, hres.2.1, hres.2.2 5⟩
